import Mathlib

/-!
# Verification of the elaboration core against its specification

This development gives a shallow embedding, in Lean 4, of the elaboration
core of the repository (the C++ elaborator `elaborator.cpp` together with
`library/unification_hint.cpp`), and proves or refutes the frozen claims
about it.

Conventions of the embedding:
* terms of the object language are modelled by the inductive type `L3.Expr`,
  a faithful rendering of the C++ `expr` variants the cited code inspects
  (bound variables, locals, metavariables, sorts, constants, applications,
  lambda/pi binders, annotation macros, and the typed error placeholder);
* the external collaborators (the definitional-equality checker, class
  instance search, the environment) are modelled as explicit function
  parameters bundled in `L3.ElabOracle`, exactly the interface §6 of the
  spec requires of them;
* the mutable elaboration-session state is passed explicitly: the abstract
  checker state `σ` plus the concretely modelled session fields form
  `L3.EState`.  A C++ `snapshot`/`restore` becomes re-use of an earlier
  state value;
* C++ exceptions become `Except L3.ElabErr`; throwing is `.error`,
  `try/catch` is a `match`.
-/

namespace L3

/-- Hierarchical names are modelled by natural numbers (think of a name as its
index in some fixed enumeration); only equality and a fixed total order on
names matter to the cited code. -/
abbrev Name := Nat

/-- Modelled from the spec: the total order on names used to key the
unification-hint registry ("the *ordered* pair of the two patterns' head
constant names (lexicographically smaller first)").  The C++ `name::quick_cmp`
(`util/name.cpp`, not part of the sources) is some fixed total order on names;
the spec describes it as the lexicographic one.  With names modelled as
numbers in a fixed enumeration, that order is the numeric one. -/
def quickCmp (n₁ n₂ : Name) : Ordering :=
  if n₁ < n₂ then .lt else if n₂ < n₁ then .gt else .eq

/-- Binder annotations, as in the C++ `binder_info`. -/
inductive BinderInfo where
  | default
  | implicit
  | strictImplicit
  | instImplicit
deriving DecidableEq, Repr

/-- The term model (C++ `expr`).  `tagged` models the annotation macros the
elaborator inspects (`as_is`, inaccessible markers, placeholders, anonymous
constructors); `placeholderTerm` models the typed "sorry" placeholder
produced by error recovery (`mk_sorry`). -/
inductive Expr where
  | bvar (idx : Nat)
  | fvar (id : Nat)
  | mvar (id : Nat)
  | sort (u : Nat)
  | const (n : Name)
  | app (f a : Expr)
  | lam (bi : BinderInfo) (d b : Expr)
  | pi (bi : BinderInfo) (d b : Expr)
  | tagged (tag : Name) (e : Expr)
  | placeholderTerm (ty : Expr)
deriving DecidableEq, Repr

namespace Expr

/-- C++ `has_expr_metavar`: does the term contain a metavariable? -/
def hasExprMetavar : Expr → Bool
  | .bvar _ => false
  | .fvar _ => false
  | .mvar _ => true
  | .sort _ => false
  | .const _ => false
  | .app f a => f.hasExprMetavar || a.hasExprMetavar
  | .lam _ d b => d.hasExprMetavar || b.hasExprMetavar
  | .pi _ d b => d.hasExprMetavar || b.hasExprMetavar
  | .tagged _ e => e.hasExprMetavar
  | .placeholderTerm ty => ty.hasExprMetavar

/-- C++ `is_metavar`: is the term itself a metavariable reference? -/
def isMetavar : Expr → Bool
  | .mvar _ => true
  | _ => false

/-- C++ `is_app`. -/
def isApp : Expr → Bool
  | .app _ _ => true
  | _ => false

/-- C++ `app_fn` (total here; only meaningful on applications). -/
def appFn : Expr → Expr
  | .app f _ => f
  | e => e

/-- C++ `app_arg` (total here; only meaningful on applications). -/
def appArg : Expr → Expr
  | .app _ a => a
  | e => e

/-- C++ `is_constant`. -/
def isConstant : Expr → Bool
  | .const _ => true
  | _ => false

/-- C++ `const_name` (total here; only meaningful on constants). -/
def constName : Expr → Name
  | .const n => n
  | _ => 0

/-- C++ `get_app_fn`: the head of an iterated application. -/
def getAppFn : Expr → Expr
  | .app f _ => f.getAppFn
  | e => e

/-- C++ `get_app_args`: the arguments of an iterated application, in order. -/
def getAppArgs : Expr → List Expr
  | .app f a => f.getAppArgs ++ [a]
  | _ => []

/-- C++ `is_pi`. -/
def isPi : Expr → Bool
  | .pi _ _ _ => true
  | _ => false

/-- C++ `binding_domain`. -/
def bindingDomain : Expr → Expr
  | .pi _ d _ => d
  | .lam _ d _ => d
  | e => e

/-- C++ `binding_body`. -/
def bindingBody : Expr → Expr
  | .pi _ _ b => b
  | .lam _ _ b => b
  | e => e

/-- C++ `binding_info`. -/
def bindingInfo : Expr → BinderInfo
  | .pi bi _ _ => bi
  | .lam bi _ _ => bi
  | _ => .default

/-- C++ `is_lambda`. -/
def isLambda : Expr → Bool
  | .lam _ _ _ => true
  | _ => false

/-- Lift loose bound variables `≥ k` by `n` (kernel `lift_free_vars`). -/
def liftLooseBVars : Expr → Nat → Nat → Expr
  | .bvar i, k, n => if k ≤ i then .bvar (i + n) else .bvar i
  | .app f a, k, n => .app (f.liftLooseBVars k n) (a.liftLooseBVars k n)
  | .lam bi d b, k, n => .lam bi (d.liftLooseBVars k n) (b.liftLooseBVars (k+1) n)
  | .pi bi d b, k, n => .pi bi (d.liftLooseBVars k n) (b.liftLooseBVars (k+1) n)
  | .tagged t e, k, n => .tagged t (e.liftLooseBVars k n)
  | .placeholderTerm ty, k, n => .placeholderTerm (ty.liftLooseBVars k n)
  | e, _, _ => e

/-- Substitute `a` for bound variable `k` (kernel `instantiate`, one value). -/
def substBVar (a : Expr) : Expr → Nat → Expr
  | .bvar i, k =>
      if i = k then a.liftLooseBVars 0 k
      else if k < i then .bvar (i - 1) else .bvar i
  | .app f a', k => .app (substBVar a f k) (substBVar a a' k)
  | .lam bi d b, k => .lam bi (substBVar a d k) (substBVar a b (k+1))
  | .pi bi d b, k => .pi bi (substBVar a d k) (substBVar a b (k+1))
  | .tagged t e, k => .tagged t (substBVar a e k)
  | .placeholderTerm ty, k => .placeholderTerm (substBVar a ty k)
  | e, _ => e

/-- Kernel `instantiate(body, arg)`: plug `arg` for the top bound variable. -/
def instantiate1 (b a : Expr) : Expr := substBVar a b 0

/-- Strip all leading pi binders (the `while (is_pi(type)) type = binding_body(type)`
idiom of the C++ sources; bodies are taken raw, exactly as in the sources). -/
def stripPis : Expr → Expr
  | .pi _ _ b => b.stripPis
  | e => e

/-- The list of binder domains of the leading pi telescope, bodies taken raw
(as in `elaborator::ready_to_synthesize`). -/
def telescopeDomains : Expr → List Expr
  | .pi _ d b => d :: b.telescopeDomains
  | _ => []

end Expr

/-- C++ `is_app_of(e, n, k)`: `e` is an iterated application of constant `n`
to exactly `k` arguments. -/
def isAppOf (e : Expr) (n : Name) (k : Nat) : Bool :=
  e.getAppFn == .const n && e.getAppArgs.length == k

/-! ## Unification-hint registry (`library/unification_hint.cpp`) -/

/-- C++ `unification_hint`: oriented pattern pair, side constraints, arity. -/
structure UnificationHint where
  lhs : Expr
  rhs : Expr
  constraints : List (Expr × Expr)
  numVars : Nat
deriving DecidableEq, Repr

/-- The per-key priority queue of hints: hints with their priorities, kept in
descending priority order, insertion order breaking ties
(C++ `unification_hint_queue`). -/
abbrev UnificationHintQueue := List (UnificationHint × Nat)

/-- Insertion into the priority queue: higher priority first, stable for ties
(an earlier insertion with the same priority stays earlier). -/
def queueInsert (q : UnificationHintQueue) (h : UnificationHint) (prio : Nat) :
    UnificationHintQueue :=
  match q with
  | [] => [(h, prio)]
  | (h', p') :: q' =>
      if prio > p' then (h, prio) :: (h', p') :: q'
      else (h', p') :: queueInsert q' h prio

/-- C++ `unification_hints`: a map from ordered name pairs to hint queues,
modelled as an association list. -/
abbrev UnificationHints := List ((Name × Name) × UnificationHintQueue)

/-- Lookup in the registry (C++ `m_hints.find`). -/
def hintsFind (hs : UnificationHints) (k : Name × Name) : Option UnificationHintQueue :=
  match hs with
  | [] => none
  | (k', q) :: hs' => if k' = k then some q else hintsFind hs' k

/-- Insert/replace in the registry (C++ `m_hints.insert`). -/
def hintsInsert (hs : UnificationHints) (k : Name × Name) (q : UnificationHintQueue) :
    UnificationHints :=
  match hs with
  | [] => [(k, q)]
  | (k', q') :: hs' => if k' = k then (k, q) :: hs' else (k', q') :: hintsInsert hs' k q

/-- The key/orientation computation of `unification_hint_state::register_hint`
(lines 83–95): take the heads of the two pattern sides, require both to be
constants, and swap the sides so the `quickCmp`-smaller head name comes first.
Returns the key together with the (possibly swapped) oriented patterns. -/
def registerHintKey (patternLhs patternRhs : Expr) :
    Except String ((Name × Name) × Expr × Expr) :=
  let lhsFn := patternLhs.getAppFn
  let rhsFn := patternRhs.getAppFn
  if !lhsFn.isConstant || !rhsFn.isConstant then
    .error "invalid unification hint, the heads of both sides of pattern must be constants"
  else
    let (lhsFn', rhsFn', lhs', rhs') :=
      if quickCmp lhsFn.constName rhsFn.constName = .gt then
        (rhsFn, lhsFn, patternRhs, patternLhs)
      else (lhsFn, rhsFn, patternLhs, patternRhs)
    .ok ((lhsFn'.constName, rhsFn'.constName), lhs', rhs')

/-- The registry-update tail of `register_hint` (lines 123–127): append the
hint to the queue stored under the computed key. -/
def registerHintStore (hs : UnificationHints) (patternLhs patternRhs : Expr)
    (constraints : List (Expr × Expr)) (numVars prio : Nat) :
    Except String UnificationHints :=
  match registerHintKey patternLhs patternRhs with
  | .error e => .error e
  | .ok (key, lhs, rhs) =>
      let q := (hintsFind hs key).getD []
      .ok (hintsInsert hs key (queueInsert q ⟨lhs, rhs, constraints, numVars⟩ prio))

/-- C++ `unification_hint_queue::to_buffer`: the hints in queue order. -/
def queueToList (q : UnificationHintQueue) : List UnificationHint :=
  q.map Prod.fst

/-- C++ `get_unification_hints(hints, n1, n2, uhints)` (lines 174–182): order
the query pair by `quickCmp` before consulting the registry. -/
def getUnificationHints (hs : UnificationHints) (n₁ n₂ : Name) : List UnificationHint :=
  if quickCmp n₁ n₂ = .gt then
    (hintsFind hs (n₂, n₁)).elim [] queueToList
  else
    (hintsFind hs (n₁, n₂)).elim [] queueToList

end L3

namespace L3

/-! ### Claim C3: hint registry keying -/

lemma quickCmp_eq_gt_iff {a b : Name} : quickCmp a b = .gt ↔ b < a := by
  unfold quickCmp
  split_ifs with h₁ h₂
  · simp only [reduceCtorEq, false_iff]
    exact fun h => absurd h₁ (lt_asymm h)
  · simpa using h₂
  · simpa using h₂

lemma quickCmp_eq_of_not_lt {a b : Name} (h₁ : ¬ a < b) (h₂ : ¬ b < a) : a = b :=
  le_antisymm (not_lt.mp h₂) (not_lt.mp h₁)

/-- **C3.** `register_hint` stores every unification hint under the pair of the
two pattern heads' constant names ordered so the `quickCmp`-smaller (per the
spec: lexicographically smaller) name comes first, and `get_unification_hints`
consults the key under the same ordering; consequently the hints returned for
`(n₁, n₂)` always equal the hints returned for `(n₂, n₁)`. -/
theorem c3_hint_registry_keying :
    (∀ pl pr key l r, registerHintKey pl pr = Except.ok (key, l, r) →
        quickCmp key.1 key.2 ≠ Ordering.gt) ∧
    (∀ hs (n₁ n₂ : Name), getUnificationHints hs n₁ n₂ = getUnificationHints hs n₂ n₁) ∧
    (∀ hs pl pr cs nv p hs', registerHintStore hs pl pr cs nv p = Except.ok hs' →
        ∃ key lhs rhs, registerHintKey pl pr = Except.ok (key, lhs, rhs) ∧
          quickCmp key.1 key.2 ≠ Ordering.gt ∧
          hs' = hintsInsert hs key
            (queueInsert ((hintsFind hs key).getD []) ⟨lhs, rhs, cs, nv⟩ p)) := by
  have hkey : ∀ pl pr key l r, registerHintKey pl pr = Except.ok (key, l, r) →
      quickCmp key.1 key.2 ≠ Ordering.gt := by
    intro pl pr key l r h
    unfold registerHintKey at h
    by_cases hc : (!pl.getAppFn.isConstant || !pr.getAppFn.isConstant) = true
    · simp [hc] at h
    · simp only [hc, Bool.false_eq_true, if_false] at h
      by_cases hswap : quickCmp pl.getAppFn.constName pr.getAppFn.constName = .gt
      · simp only [hswap, if_true, Except.ok.injEq, Prod.mk.injEq] at h
        obtain ⟨hk, -⟩ := h
        subst hk
        intro hgt
        rw [quickCmp_eq_gt_iff] at hswap hgt
        exact lt_asymm hswap hgt
      · simp only [hswap, if_false, Except.ok.injEq, Prod.mk.injEq] at h
        obtain ⟨hk, -⟩ := h
        subst hk
        exact hswap
  refine ⟨hkey, ?_, ?_⟩
  · intro hs n₁ n₂
    unfold getUnificationHints
    rcases lt_trichotomy n₁ n₂ with h | h | h
    · have h₁ : ¬ quickCmp n₁ n₂ = .gt := by
        rw [quickCmp_eq_gt_iff]; exact fun h' => lt_asymm h h'
      have h₂ : quickCmp n₂ n₁ = .gt := quickCmp_eq_gt_iff.mpr h
      simp [h₁, h₂]
    · subst h; rfl
    · have h₁ : quickCmp n₁ n₂ = .gt := quickCmp_eq_gt_iff.mpr h
      have h₂ : ¬ quickCmp n₂ n₁ = .gt := by
        rw [quickCmp_eq_gt_iff]; exact fun h' => lt_asymm h h'
      simp [h₁, h₂]
  · intro hs pl pr cs nv p hs' h
    unfold registerHintStore at h
    cases hrk : registerHintKey pl pr with
    | error e => rw [hrk] at h; cases h
    | ok t =>
        rcases t with ⟨key, lhs, rhs⟩
        rw [hrk] at h
        simp only [Except.ok.injEq] at h
        exact ⟨key, lhs, rhs, rfl, hkey pl pr key lhs rhs hrk, h.symm⟩

/-- Witness for C3 at a concrete input: the hint with pattern heads `2` and
`1` is keyed as `(1, 2)`, and queries in either order agree on a concrete
registry. -/
theorem c3_hint_registry_keying_witness :
    quickCmp 1 2 ≠ Ordering.gt ∧
    getUnificationHints
        [((1, 2), [(⟨Expr.const 2, Expr.const 1, [], 0⟩, 1)])] 2 1
      = getUnificationHints
        [((1, 2), [(⟨Expr.const 2, Expr.const 1, [], 0⟩, 1)])] 1 2 :=
  ⟨c3_hint_registry_keying.1 (Expr.app (Expr.const 2) (Expr.mvar 0))
      (Expr.app (Expr.const 1) (Expr.mvar 0)) (1, 2)
      (Expr.app (Expr.const 1) (Expr.mvar 0)) (Expr.app (Expr.const 2) (Expr.mvar 0))
      rfl,
    c3_hint_registry_keying.2.1 _ 2 1⟩

end L3

namespace L3

/-! ## Session state, external collaborators, and errors

The elaborator throws C++ exceptions; we model them as values of `ElabErr`.
Error messages are modelled structurally (which terms/reasons they mention),
not as rendered text. -/

/-- The exceptions thrown by the cited elaborator code.  `nested` models
`nested_elaborator_exception(ref, inner, msg)`: the inner exception plus the
errors and terms the outer message text embeds. -/
inductive ElabErr where
  | msg (s : String)
  | synthFailed (classType : Expr)
  | synthMismatch (synthesized inferred : Expr)
  | appTypeMismatch (arg argType expectedType : Expr)
  | invalidOverload (c cType expected : Expr)
  | noOverloadApplicable (fns : List Expr) (errs : List ElabErr)
  | ambiguousOverload (cs : List Expr)
  | nested (inner : ElabErr) (ctxErrs : List ElabErr) (ctxExprs : List Expr)
  | tooManyArgs
  | elimNoExpectedType (fn : Name)
  | elimExpectedTypeHasMvar (fn : Name) (expected : Expr)
  | elimKeyArgHasMvar (fn : Name) (arg : Expr)
  | elimMotiveFailed
  | anonCtorNoExpectedType
  | anonCtorNotInductive (expected : Expr)
  | anonCtorPrivate (iname : Name)
  | anonCtorNotInductiveDecl (iname : Name)
  | anonCtorNotSingleCtor (iname : Name)
  | fuelExhausted

/-- The per-declaration mutable state of an elaboration session, passed
explicitly.  `ctx` is the state of the external checker/metavariable context
(abstract `σ`); the remaining fields model the session fields of the C++
`elaborator` that the cited code reads or writes.  A C++ `snapshot` is simply
an earlier `EState` value, and `restore` is re-use of that value. -/
structure EState (σ : Type) where
  ctx : σ
  /-- `m_instances`: pending instance metavariables (most recent first). -/
  instances : List Expr
  /-- `m_numeral_types`. -/
  numeralTypes : List Expr
  /-- `m_tactics`. -/
  tactics : List (Expr × Expr)
  /-- `m_in_pattern`. -/
  inPattern : Bool
  /-- `m_in_quote`. -/
  inQuote : Bool
  /-- `m_recover_from_errors` (conjoined with the availability of a position
  provider, which `try_report` also requires). -/
  recoverFromErrors : Bool
  /-- `m_has_errors`. -/
  hasErrors : Bool
  /-- `m_coercions`. -/
  coercionsEnabled : Bool
deriving Repr

/-- The external collaborators (spec §6) and the in-file subroutines whose
internals the claims do not touch, bundled as explicit functions over the
abstract checker state `σ`.  `φ` is the type of `first_pass_info` payloads.
Functions on `σ` are checker/environment operations; functions on `EState σ`
are elaborator subroutines (they may defer instances, report errors, etc.). -/
structure ElabOracle (σ φ : Type) where
  /-- `type_context::is_def_eq` (may assign metavariables; never throws,
  returning `false` on failure, per the §6 contract). -/
  isDefEq : σ → Expr → Expr → Bool × σ
  /-- `type_context::whnf`. -/
  whnf : σ → Expr → Expr
  /-- `type_context::relaxed_whnf`. -/
  relaxedWhnf : σ → Expr → Expr
  /-- `type_context::infer`. -/
  inferType : σ → Expr → Expr
  /-- `type_context::instantiate_mvars`. -/
  instantiateMvars : σ → Expr → Expr
  /-- `elaborator::is_monad`: class search for `monad F` succeeds. -/
  isMonad : σ → Expr → Bool
  /-- `type_context::mk_class_instance_at`: external class-instance search. -/
  mkClassInstanceAt : σ → Expr → Option (Expr × σ)
  /-- app-builder construction of `has_coe_t e_type type`; `none` models
  `app_builder_exception`. -/
  mkAppHasCoeT : σ → Expr → Expr → Option Expr
  /-- `type_context::mk_metavar_decl`: a fresh metavariable of a given type. -/
  mkMetavar : σ → Expr → Expr × σ
  /-- `elaborator::mk_type_metavar`. -/
  mkTypeMetavar : σ → Expr × σ
  /-- `elaborator::visit` (the bidirectional visit algorithm). -/
  visit : EState σ → Expr → Option Expr → Except ElabErr (Expr × EState σ)
  /-- `elaborator::visit_function`. -/
  visitFunction : EState σ → Expr → Bool → Except ElabErr (Expr × EState σ)
  /-- `Fun(eta_args, body)`: abstraction of the eta arguments produced by
  optional/auto-parameter processing (no claim inspects its internals). -/
  funWrap : List Expr → Expr → Expr
  /-- `elaborator::first_pass`: walk the head's telescope creating argument
  metavariables and unify the applied type with the expected type, recording a
  `first_pass_info` payload. -/
  firstPass : EState σ → Expr → List Expr → Expr → Except ElabErr (φ × EState σ)
  /-- `elaborator::second_pass`. -/
  secondPass : EState σ → Expr → List Expr → φ → Except ElabErr (Expr × EState σ)
  /-- `elaborator::ensure_function`. -/
  ensureFunction : EState σ → Expr → Except ElabErr (Expr × EState σ)
  /-- `elaborator::process_optional_and_auto_params`: optionally a new result
  type, plus eta args and extra filled-in arguments. -/
  processOptAuto : EState σ → Expr → Option Expr × List Expr × List Expr × EState σ
  /-- `elaborator::is_with_expected_candidate`. -/
  isWithExpectedCandidate : Expr → Bool
  /-- `elaborator::try_to_pi`. -/
  tryToPi : σ → Expr → Expr
  /-- `kabstract(m_ctx, e, key)`: abstract occurrences of `key` in `e` as the
  top bound variable. -/
  kabstract : σ → Expr → Expr → Expr
  /-- environment: `is_private`. -/
  isPrivate : Name → Bool
  /-- environment: `inductive::is_inductive_decl`. -/
  isInductiveDecl : Name → Bool
  /-- environment: `get_intro_rule_names`. -/
  getIntroRuleNames : Name → List Name
  /-- environment: `env.get(n).get_type()`. -/
  envGetType : Name → Expr
  /-- `metavar_context` assignment (`assign_mvar`); `none` models failure. -/
  assignMvar : σ → Expr → Expr → Option σ
  /-- `elaborator::synthesize_using_tactics`: synchronous tactic-block
  execution (external engine, §6). -/
  synthesizeUsingTactics : EState σ → Except ElabErr (EState σ)

/-! Distinguished constant names and annotation tags (their numeric values are
arbitrary but fixed; constants carry no universe-level arguments in this model
since none of the cited code inspects them). -/

def outParamName : Name := 1000
def asIsTag : Name := 1001
def inaccessibleTag : Name := 1002
def placeholderTag : Name := 1003
def anonymousConstructorTag : Name := 1004
def thunkName : Name := 1010
def unitName : Name := 1011
def decidableName : Name := 1012
def decidableToBoolName : Name := 1013
def boolName : Name := 1014
def coeToLiftName : Name := 1016
def coeName : Name := 1017
def optParamName : Name := 1018
def autoParamName : Name := 1019

/-- `mk_expr_placeholder(some type)`: the `_` placeholder annotated with a
type. -/
def mkExprPlaceholder (ty : Expr) : Expr := .tagged placeholderTag ty

/-- C++ `is_as_is`. -/
def isAsIs : Expr → Bool
  | .tagged t _ => t == asIsTag
  | _ => false

/-- C++ `get_as_is_arg`. -/
def getAsIsArg : Expr → Expr
  | .tagged _ e => e
  | e => e

/-- C++ `is_placeholder`. -/
def isPlaceholder : Expr → Bool
  | .tagged t _ => t == placeholderTag
  | _ => false

/-- C++ `mk_inaccessible`. -/
def mkInaccessible (e : Expr) : Expr := .tagged inaccessibleTag e

/-- Modelled from the spec: `is_class_out_param` (`library/class.cpp`, not part
of the sources).  Per the spec, an argument position is "marked as an output
parameter of the class" exactly when its declared domain is an application of
the distinguished `out_param` marker constant. -/
def isClassOutParam (e : Expr) : Bool := isAppOf e outParamName 1

/-- `elaborator::ready_to_synthesize`, argument walk (lines 297–305): walk the
head constant's type telescope alongside the class arguments; every argument
that still contains a metavariable must sit at an `out_param` position. -/
def readyToSynthesizeArgs : Expr → List Expr → Bool
  | _, [] => true
  | .pi _ d b, arg :: rest =>
      if arg.hasExprMetavar && !isClassOutParam d then false
      else readyToSynthesizeArgs b rest
  | _, _ :: _ => false

/-- `elaborator::ready_to_synthesize` (lines 288–307). -/
def readyToSynthesize {σ φ : Type} (O : ElabOracle σ φ) (s : σ) (instType : Expr) : Bool :=
  if !instType.hasExprMetavar then true
  else
    let body := instType.stripPis
    let C := body.getAppFn
    if !C.isConstant then false
    else readyToSynthesizeArgs (O.inferType s C) body.getAppArgs

/-- `mk_sorry(expected_type, ref)` (lines 222–225): a typed placeholder of the
expected type, or of a fresh type metavariable if none is given. -/
def mkRecoveryTerm {σ φ : Type} (O : ElabOracle σ φ) (st : EState σ)
    (expectedType : Option Expr) : Expr × EState σ :=
  match expectedType with
  | some t => (.placeholderTerm t, st)
  | none =>
      let (m, s') := O.mkTypeMetavar st.ctx
      (.placeholderTerm m, { st with ctx := s' })

/-- `elaborator::recoverable_error` (lines 227–230): report the error and
produce a typed placeholder when recovery is on (`try_report` succeeded),
otherwise throw. -/
def recoverableError {σ φ : Type} (O : ElabOracle σ φ) (st : EState σ)
    (expectedType : Option Expr) (err : ElabErr) : Except ElabErr (Expr × EState σ) :=
  if st.recoverFromErrors then
    let (e, st') := mkRecoveryTerm O st expectedType
    .ok (e, { st' with hasErrors := true })
  else .error err

/-- `elaborator::mk_instance_core` (lines 265–283): run external instance
search; on failure raise a recoverable "failed to synthesize type class
instance" error. -/
def mkInstanceCore {σ φ : Type} (O : ElabOracle σ φ) (st : EState σ) (C : Expr) :
    Except ElabErr (Expr × EState σ) :=
  match O.mkClassInstanceAt st.ctx C with
  | some (inst, s') => .ok (inst, { st with ctx := s' })
  | none => recoverableError O st (some C) (.synthFailed C)

/-- `elaborator::mk_instance` (lines 309–319): in quoted patterns produce a
placeholder; if the class type is not ready, create a metavariable and defer
it onto the pending instance list; otherwise synthesize now. -/
def mkInstance {σ φ : Type} (O : ElabOracle σ φ) (st : EState σ) (C : Expr) :
    Except ElabErr (Expr × EState σ) :=
  if st.inPattern && st.inQuote then
    .ok (mkExprPlaceholder C, st)
  else if !readyToSynthesize O st.ctx C then
    let (inst, s') := O.mkMetavar st.ctx C
    .ok (inst, { st with ctx := s', instances := inst :: st.instances })
  else
    mkInstanceCore O st C

/-! ## Coercion insertion (`elaborator.cpp` lines 537–719, spec §4.5) -/

/-- `elaborator::mk_Prop_to_bool_coercion` (lines 537–542). -/
def mkPropToBoolCoercion {σ φ : Type} (O : ElabOracle σ φ) (st : EState σ) (e : Expr) :
    Except ElabErr (Option Expr × EState σ) :=
  let dec := Expr.app (.const decidableName) e
  match mkInstance O st dec with
  | .error err => .error err
  | .ok (inst, st') =>
      .ok (some (Expr.app (Expr.app (.const decidableToBoolName) e) inst), st')

/-- `elaborator::mk_coercion_core` (lines 544–580): `Prop`-to-`bool` decision
coercion, else — when both types are metavariable-free — class search for
`has_coe_t` building the `coe` application, else no coercion. -/
def mkCoercionCore {σ φ : Type} (O : ElabOracle σ φ) (st : EState σ)
    (e eType type : Expr) : Except ElabErr (Option Expr × EState σ) :=
  let general (st : EState σ) : Except ElabErr (Option Expr × EState σ) :=
    if !eType.hasExprMetavar && !type.hasExprMetavar then
      match O.mkAppHasCoeT st.ctx eType type with
      | none => .ok (none, st)
      | some hasCoeT =>
          match O.mkClassInstanceAt st.ctx hasCoeT with
          | none => .ok (none, st)
          | some (inst, s') =>
              let coeToLift := Expr.app (Expr.app (Expr.app (.const coeToLiftName) eType) type) inst
              let coe := Expr.app (Expr.app (Expr.app (Expr.app (.const coeName) eType) type) coeToLift) e
              .ok (some coe, { st with ctx := s' })
    else .ok (none, st)
  if eType = .sort 0 then
    let (isBool, s₁) := O.isDefEq st.ctx type (.const boolName)
    let st₁ := { st with ctx := s₁ }
    if isBool then mkPropToBoolCoercion O st₁ e else general st₁
  else general st

/-- `elaborator::try_monad_coercion` (lines 644–661): the monadic-lifting
heuristic.  Not applicable unless exactly one of the two types contains
metavariables, both are applications whose function parts are metavariable
free, at least one argument part is a bare metavariable, and both function
parts are monads; otherwise unify the argument parts and retry the general
coercion on the instantiated expected type. -/
def tryMonadCoercion {σ φ : Type} (O : ElabOracle σ φ) (st : EState σ)
    (e eType type : Expr) : Except ElabErr (Option Expr × EState σ) :=
  if (eType.hasExprMetavar && type.hasExprMetavar)
      || (!eType.hasExprMetavar && !type.hasExprMetavar)
      || !eType.isApp
      || !type.isApp
      || type.appFn.hasExprMetavar
      || eType.appFn.hasExprMetavar
      || (!eType.appArg.isMetavar && !type.appArg.isMetavar)
      || !O.isMonad st.ctx eType.appFn
      || !O.isMonad st.ctx type.appFn then
    .ok (none, st)
  else
    let (b, s₁) := O.isDefEq st.ctx eType.appArg type.appArg
    let st₁ := { st with ctx := s₁ }
    if !b then .ok (none, st₁)
    else mkCoercionCore O st₁ e eType (O.instantiateMvars st₁.ctx type)

/-- `elaborator::mk_coercion` (lines 663–676). -/
def mkCoercion {σ φ : Type} (O : ElabOracle σ φ) (st : EState σ)
    (e eType type : Expr) : Except ElabErr (Option Expr × EState σ) :=
  if !st.coercionsEnabled then .ok (none, st)
  else
    let eType' := O.instantiateMvars st.ctx eType
    let type' := O.instantiateMvars st.ctx type
    if !eType'.hasExprMetavar && !type'.hasExprMetavar then
      mkCoercionCore O st e eType' type'
    else
      tryMonadCoercion O st e eType' type'

/-- `elaborator::ensure_has_type` (lines 700–704): identity when the checker
accepts the two types as definitionally equal, else try to insert a
coercion. -/
def ensureHasType {σ φ : Type} (O : ElabOracle σ φ) (st : EState σ)
    (e eType type : Expr) : Except ElabErr (Option Expr × EState σ) :=
  let (b, s₁) := O.isDefEq st.ctx eType type
  let st₁ := { st with ctx := s₁ }
  if b then .ok (some e, st₁)
  else mkCoercion O st₁ e eType type

end L3

namespace L3

/-! ## A concrete executable instantiation of the collaborators

Used by the witnesses: the checker state is a metavariable-assignment list,
definitional equality is syntactic equality after substitution plus
first-order assignment of a bare metavariable to a metavariable-free term. -/

/-- Toy checker state: metavariable assignments. -/
abbrev TState := List (Nat × Expr)

/-- Substitute assigned metavariables (assigned values are closed). -/
def toySubst (s : TState) : Expr → Expr
  | .mvar id =>
      match s.lookup id with
      | some v => v
      | none => .mvar id
  | .app f a => .app (toySubst s f) (toySubst s a)
  | .lam bi d b => .lam bi (toySubst s d) (toySubst s b)
  | .pi bi d b => .pi bi (toySubst s d) (toySubst s b)
  | .tagged t e => .tagged t (toySubst s e)
  | .placeholderTerm ty => .placeholderTerm (toySubst s ty)
  | e => e

/-- Toy definitional equality: syntactic after substitution, or assignment of
an unassigned bare metavariable to a metavariable-free term. -/
def toyIsDefEq (s : TState) (a b : Expr) : Bool × TState :=
  let a' := toySubst s a
  let b' := toySubst s b
  if a' = b' then (true, s)
  else
    match a', b' with
    | .mvar id, t => if t.hasExprMetavar then (false, s) else (true, (id, t) :: s)
    | t, .mvar id => if t.hasExprMetavar then (false, s) else (true, (id, t) :: s)
    | _, _ => (false, s)

/-- A concrete oracle for witnesses: trivial checker, no monads, no instances,
identity subroutines. -/
def toyOracle : ElabOracle TState Unit where
  isDefEq := toyIsDefEq
  whnf := fun _ e => e
  relaxedWhnf := fun _ e => e
  inferType := fun _ _ => .sort 0
  instantiateMvars := toySubst
  isMonad := fun _ _ => false
  mkClassInstanceAt := fun _ _ => none
  mkAppHasCoeT := fun _ _ _ => none
  mkMetavar := fun s _ => (.mvar (9000 + s.length), s)
  mkTypeMetavar := fun s => (.mvar (9000 + s.length), s)
  visit := fun st e _ => .ok (e, st)
  visitFunction := fun st e _ => .ok (e, st)
  funWrap := fun _ e => e
  firstPass := fun st _ _ _ => .ok ((), st)
  secondPass := fun st fn _ _ => .ok (fn, st)
  ensureFunction := fun st e => .ok (e, st)
  processOptAuto := fun st _ => (none, [], [], st)
  isWithExpectedCandidate := fun _ => false
  tryToPi := fun _ e => e
  kabstract := fun _ e _ => e
  isPrivate := fun _ => false
  isInductiveDecl := fun _ => false
  getIntroRuleNames := fun _ => []
  envGetType := fun _ => .sort 0
  assignMvar := fun s m v =>
    match m with
    | .mvar id => some ((id, v) :: s)
    | _ => none
  synthesizeUsingTactics := fun st => .ok st

/-- A concrete initial session state for witnesses. -/
def toySt : EState TState :=
  { ctx := [], instances := [], numeralTypes := [], tactics := [],
    inPattern := false, inQuote := false, recoverFromErrors := true,
    hasErrors := false, coercionsEnabled := true }

/-! ### Claim C2: coercion reflexivity -/

/-- **C2.** For every term `e` and types on which the checker's
definitional-equality test succeeds — in particular for syntactically
identical types — `ensure_has_type(e, T, T')` returns `e` itself, with no
coercion application wrapped around it (only the checker state advances by
whatever the equality test did). -/
theorem c2_coercion_reflexivity {σ φ : Type} (O : ElabOracle σ φ) (st : EState σ)
    (e eType type : Expr) (s' : σ)
    (h : O.isDefEq st.ctx eType type = (true, s')) :
    ensureHasType O st e eType type = .ok (some e, { st with ctx := s' }) := by
  unfold ensureHasType
  rw [h]
  rfl

/-- Witness for C2 at a concrete input: with the toy checker and `T`
syntactically identical on both sides, the term comes back unchanged. -/
theorem c2_coercion_reflexivity_witness :
    ensureHasType toyOracle toySt (Expr.const 5) (Expr.const 7) (Expr.const 7)
      = .ok (some (Expr.const 5), toySt) :=
  c2_coercion_reflexivity toyOracle toySt (Expr.const 5) (Expr.const 7) (Expr.const 7)
    toySt.ctx rfl

end L3

namespace L3

/-! ### Claim C5: monadic coercion heuristic -/

/-- Refinement-comparison definition following the CLAIM's words (spec §4.5):
"both types are single-argument applications of **distinct**,
possibly-metavariable head monad-like constructors".  (The common inner type
is established by the subsequent unification, not tested up front.) -/
def specMonadHeuristicGuard {σ φ : Type} (O : ElabOracle σ φ) (s : σ)
    (eType type : Expr) : Bool :=
  eType.isApp && type.isApp
    && !eType.appFn.isApp && !type.appFn.isApp
    && (eType.appFn != type.appFn)
    && O.isMonad s eType.appFn && O.isMonad s type.appFn

/-- The applicability test actually performed by `try_monad_coercion`: the
negation of the not-applicable disjunction of lines 645–653. -/
def tryMonadGuard {σ φ : Type} (O : ElabOracle σ φ) (s : σ) (eType type : Expr) : Bool :=
  !((eType.hasExprMetavar && type.hasExprMetavar)
      || (!eType.hasExprMetavar && !type.hasExprMetavar)
      || !eType.isApp
      || !type.isApp
      || type.appFn.hasExprMetavar
      || eType.appFn.hasExprMetavar
      || (!eType.appArg.isMetavar && !type.appArg.isMetavar)
      || !O.isMonad s eType.appFn
      || !O.isMonad s type.appFn)

/-- Oracle for the C5 counterexample: every head counts as a monad, and the
external coercion-instance search succeeds. -/
def cexO : ElabOracle TState Unit :=
  { toyOracle with
    isMonad := fun _ _ => true
    mkAppHasCoeT := fun _ a b => some (.app (.app (.const 99) a) b)
    mkClassInstanceAt := fun s _ => some (.const 30, s) }

/-- C5 counterexample data: inferred type `c₂₀ c₂₁` (closed), expected type
`c₂₀ ?m₀` — the heads are *equal*, not distinct. -/
def cexEType : Expr := .app (.const 20) (.const 21)

def cexType : Expr := .app (.const 20) (.mvar 0)

/-- The coercion term the code builds in the counterexample run. -/
def cexCoe : Expr :=
  .app (.app (.app (.app (.const coeName) cexEType) cexEType)
    (.app (.app (.app (.const coeToLiftName) cexEType) cexEType) (.const 30))) (.const 40)

/-- Second C5 counterexample input: inferred type `?m₉ ?m₀` (a
possibly-metavariable head, as the claim allows), expected type `c₂₀ c₂₁`
(closed); the heads are distinct. -/
def cexEType₂ : Expr := .app (.mvar 9) (.mvar 0)

def cexType₂ : Expr := .app (.const 20) (.const 21)

/-- **C5 counterexample.**  Two concrete runs against the claim, each with
exactly one metavariable-containing side.  First: the claim's guard fails
(the two head constructors are equal, hence not "distinct"), so per the claim
coercion insertion should be skipped — yet `mk_coercion` runs the monadic
heuristic anyway: it unifies the inner arguments (assigning `?m₀ := c₂₁`) and
inserts a coercion.  Second: the claim's guard holds (distinct, monad-like,
possibly-metavariable heads), so per the claim the inner-type arguments
should be unified first and the search retried — the unification would
succeed and assign `?m₀ := c₂₁` — yet `mk_coercion` skips entirely, leaving
the state untouched, because the head `?m₉` contains a metavariable. -/
theorem c5_counterexample :
    (cexEType.hasExprMetavar = false ∧ cexType.hasExprMetavar = true ∧
      cexEType.appFn = cexType.appFn ∧
      specMonadHeuristicGuard cexO toySt.ctx cexEType cexType = false ∧
      mkCoercion cexO toySt (Expr.const 40) cexEType cexType
        = .ok (some cexCoe, { toySt with ctx := [(0, Expr.const 21)] })) ∧
    (cexEType₂.hasExprMetavar = true ∧ cexType₂.hasExprMetavar = false ∧
      specMonadHeuristicGuard cexO toySt.ctx cexEType₂ cexType₂ = true ∧
      cexO.isDefEq toySt.ctx cexEType₂.appArg cexType₂.appArg
        = (true, [(0, Expr.const 21)]) ∧
      mkCoercion cexO toySt (Expr.const 40) cexEType₂ cexType₂ = .ok (none, toySt)) :=
  ⟨⟨rfl, rfl, rfl, rfl, rfl⟩, ⟨rfl, rfl, rfl, rfl, rfl⟩⟩

/-- **C5 (amended).**  When, after instantiation, exactly one of the inferred
and expected types contains metavariables, coercion insertion is skipped
unless both types are applications whose *function parts are metavariable
free* (not necessarily distinct), *at least one argument part is a bare
metavariable*, and both function parts are monad-like — in which case the
argument parts are unified first and the general coercion search is retried
with the expected type instantiated to its now-more-concrete form. -/
theorem c5_monad_coercion_amended {σ φ : Type} (O : ElabOracle σ φ) (st : EState σ)
    (e t₁ t₂ : Expr) (hcoe : st.coercionsEnabled = true)
    (hx : (O.instantiateMvars st.ctx t₁).hasExprMetavar
        ≠ (O.instantiateMvars st.ctx t₂).hasExprMetavar) :
    (tryMonadGuard O st.ctx (O.instantiateMvars st.ctx t₁) (O.instantiateMvars st.ctx t₂) = false →
        mkCoercion O st e t₁ t₂ = .ok (none, st)) ∧
    (tryMonadGuard O st.ctx (O.instantiateMvars st.ctx t₁) (O.instantiateMvars st.ctx t₂) = true →
        mkCoercion O st e t₁ t₂ =
          (match O.isDefEq st.ctx (O.instantiateMvars st.ctx t₁).appArg
              (O.instantiateMvars st.ctx t₂).appArg with
           | (b, s₁) =>
              if !b then .ok (none, { st with ctx := s₁ })
              else mkCoercionCore O { st with ctx := s₁ } e (O.instantiateMvars st.ctx t₁)
                (O.instantiateMvars s₁ (O.instantiateMvars st.ctx t₂)))) := by
  have hb : (!(O.instantiateMvars st.ctx t₁).hasExprMetavar
      && !(O.instantiateMvars st.ctx t₂).hasExprMetavar) = false := by
    cases h₁ : (O.instantiateMvars st.ctx t₁).hasExprMetavar <;>
      cases h₂ : (O.instantiateMvars st.ctx t₂).hasExprMetavar <;>
      simp_all
  have key : mkCoercion O st e t₁ t₂ =
      tryMonadCoercion O st e (O.instantiateMvars st.ctx t₁) (O.instantiateMvars st.ctx t₂) := by
    unfold mkCoercion
    simp only [hcoe, Bool.not_true, Bool.false_eq_true, if_false, hb]
  constructor
  · intro hg
    rw [key]
    unfold tryMonadGuard at hg
    rw [Bool.not_eq_false'] at hg
    unfold tryMonadCoercion
    rw [hg]
    rfl
  · intro hg
    rw [key]
    unfold tryMonadGuard at hg
    rw [Bool.not_eq_true'] at hg
    unfold tryMonadCoercion
    rw [hg]
    rfl

/-- Witness for the amended C5 at a concrete input: the inferred type is a
bare metavariable (not an application), so the heuristic is not applicable
and insertion is skipped. -/
theorem c5_monad_coercion_amended_witness :
    mkCoercion toyOracle toySt (Expr.const 1) (Expr.mvar 3) (Expr.const 5)
      = .ok (none, toySt) :=
  (c5_monad_coercion_amended toyOracle toySt (Expr.const 1) (Expr.mvar 3) (Expr.const 5)
    rfl (by decide)).1 rfl

end L3

namespace L3

/-! ## Type-class instance worklist (`elaborator.cpp` lines 3079–3132, spec §4.4)

Note on error states: a C++ exception leaves the session state as it was at
the throw; since every claim-relevant catcher either restores a snapshot or
only inspects the exception, `Except.error` carries no state here. -/

/-- `elaborator::synthesize_type_class_instance_core` (lines 3079–3095): do
nothing if the type is not ready; otherwise synthesize via external search and
cross-check against the independently inferred term, throwing a hard
(non-recoverable) error on mismatch. -/
def synthesizeTypeClassInstanceCore {σ φ : Type} (O : ElabOracle σ φ) (st : EState σ)
    (mvar inferredInst instType : Expr) : Except ElabErr (Bool × EState σ) :=
  if !readyToSynthesize O st.ctx instType then .ok (false, st)
  else
    match mkInstanceCore O st instType with
    | .error e => .error e
    | .ok (synthesizedInst, st₁) =>
        let (b, s₂) := O.isDefEq st₁.ctx inferredInst synthesizedInst
        if !b then .error (.synthMismatch synthesizedInst inferredInst)
        else .ok (true, { st₁ with ctx := s₂ })
  -- the unused `mvar` argument mirrors the C++ signature (it provides the
  -- error position `ref` and the metavariable context there)

/-- `elaborator::try_synthesize_type_class_instance` (lines 3097–3101). -/
def trySynthesizeTypeClassInstance {σ φ : Type} (O : ElabOracle σ φ) (st : EState σ)
    (mvar : Expr) : Except ElabErr (Bool × EState σ) :=
  let inst := O.instantiateMvars st.ctx mvar
  let instType := O.instantiateMvars st.ctx (O.inferType st.ctx inst)
  synthesizeTypeClassInstanceCore O st mvar inst instType

/-- The classification pass at the top of
`synthesize_type_class_instances_step`: each pending metavariable with its
instantiation and instantiated type, computed against the pre-step state. -/
def classifyInstances {σ φ : Type} (O : ElabOracle σ φ) (st : EState σ) :
    List (Expr × Expr × Expr) :=
  st.instances.map fun mvar =>
    let inst := O.instantiateMvars st.ctx mvar
    let instType := O.instantiateMvars st.ctx (O.inferType st.ctx inst)
    (mvar, inst, instType)

/-- The sequential processing loop inside the step (lines 3117–3121). -/
def processInstances {σ φ : Type} (O : ElabOracle σ φ) :
    EState σ → List (Expr × Expr × Expr) → Except ElabErr (EState σ)
  | st, [] => .ok st
  | st, (mvar, inst, instType) :: rest =>
      match synthesizeTypeClassInstanceCore O st mvar inst instType with
      | .error e => .error e
      | .ok (_, st') => processInstances O st' rest

/-- `elaborator::synthesize_type_class_instances_step` (lines 3103–3123):
split the pending list into not-yet-ready (`to_keep`) and ready
(`to_process`) against the current state; if nothing is ready return with the
pending list untouched (in C++: pointer-identical), else synthesize every
ready one and keep the rest. -/
def synthesizeTypeClassInstancesStep {σ φ : Type} (O : ElabOracle σ φ) (st : EState σ) :
    Except ElabErr (EState σ) :=
  let classified := classifyInstances O st
  let toKeep := (classified.filter fun c => !readyToSynthesize O st.ctx c.2.2).map (·.1)
  let toProcess := classified.filter fun c => readyToSynthesize O st.ctx c.2.2
  if toProcess.isEmpty then .ok st
  else
    match processInstances O st toProcess with
    | .error e => .error e
    | .ok st' => .ok { st' with instances := toKeep }

/-- The draining loop of `elaborator::synthesize_type_class_instances`
(lines 3125–3132), with an explicit iteration budget.  The C++ loop is
`while (true)` and exits exactly when a step left the pending list
pointer-identical; a step either does exactly that or strictly shrinks the
pending list, so the exit test is rendered as a length comparison, and a
budget of one more than the pending-list length provably suffices
(`c4_instance_worklist`). -/
def synthesizeTypeClassInstancesLoop {σ φ : Type} (O : ElabOracle σ φ) :
    Nat → EState σ → Except ElabErr (EState σ)
  | 0, _ => .error .fuelExhausted
  | fuel+1, st =>
      match synthesizeTypeClassInstancesStep O st with
      | .error e => .error e
      | .ok st' =>
          if st'.instances.length < st.instances.length then
            synthesizeTypeClassInstancesLoop O fuel st'
          else .ok st'

/-- `elaborator::synthesize_type_class_instances` (lines 3125–3132). -/
def synthesizeTypeClassInstances {σ φ : Type} (O : ElabOracle σ φ) (st : EState σ) :
    Except ElabErr (EState σ) :=
  synthesizeTypeClassInstancesLoop O (st.instances.length + 1) st

end L3

namespace L3

lemma lengthFilterNotAdd {α : Type} (p : α → Bool) (l : List α) :
    (l.filter fun a => !p a).length + (l.filter p).length = l.length := by
  induction l with
  | nil => rfl
  | cons a l ih =>
      cases h : p a <;> simp [List.filter_cons, h] <;> omega

lemma stcStepShrinks {σ φ : Type} (O : ElabOracle σ φ) (st st' : EState σ)
    (h : synthesizeTypeClassInstancesStep O st = .ok st') :
    st' = st ∨ st'.instances.length < st.instances.length := by
  unfold synthesizeTypeClassInstancesStep at h
  by_cases he :
      ((classifyInstances O st).filter fun c => readyToSynthesize O st.ctx c.2.2).isEmpty
  · left
    simp only [he, if_true] at h
    exact (Except.ok.inj h).symm
  · right
    simp only [he, Bool.false_eq_true, if_false] at h
    cases hp : processInstances O st
        ((classifyInstances O st).filter fun c => readyToSynthesize O st.ctx c.2.2) with
    | error e => rw [hp] at h; cases h
    | ok st'' =>
        rw [hp] at h
        have hst' := (Except.ok.inj h).symm
        have hlen : (classifyInstances O st).length = st.instances.length := by
          simp [classifyInstances]
        have hpos :
            0 < ((classifyInstances O st).filter fun c => readyToSynthesize O st.ctx c.2.2).length := by
          have hne : ((classifyInstances O st).filter fun c => readyToSynthesize O st.ctx c.2.2) ≠ [] := by
            intro hnil
            rw [hnil] at he
            exact he rfl
          exact List.length_pos.mpr hne
        have hsum := lengthFilterNotAdd (fun c => readyToSynthesize O st.ctx c.2.2)
          (classifyInstances O st)
        have : st'.instances.length =
            ((classifyInstances O st).filter fun c => !readyToSynthesize O st.ctx c.2.2).length := by
          rw [hst']
          simp
        omega

lemma stcLoopFuelMono {σ φ : Type} (O : ElabOracle σ φ) :
    ∀ (fuel₁ fuel₂ : Nat) (st : EState σ),
      st.instances.length < fuel₁ → st.instances.length < fuel₂ →
      synthesizeTypeClassInstancesLoop O fuel₁ st = synthesizeTypeClassInstancesLoop O fuel₂ st := by
  intro fuel₁
  induction fuel₁ with
  | zero => intro fuel₂ st h₁ _; omega
  | succ n ih =>
      intro fuel₂ st h₁ h₂
      cases fuel₂ with
      | zero => omega
      | succ m =>
          unfold synthesizeTypeClassInstancesLoop
          cases hs : synthesizeTypeClassInstancesStep O st with
          | error e => rfl
          | ok st' =>
              simp only
              by_cases hlt : st'.instances.length < st.instances.length
              · simp only [hlt, if_true]
                exact ih m st' (by omega) (by omega)
              · simp only [hlt, if_false]

lemma stcLoopFixpoint {σ φ : Type} (O : ElabOracle σ φ) :
    ∀ (fuel : Nat) (st st' : EState σ),
      synthesizeTypeClassInstancesLoop O fuel st = .ok st' →
      synthesizeTypeClassInstancesStep O st' = .ok st' := by
  intro fuel
  induction fuel with
  | zero => intro st st' h; cases h
  | succ n ih =>
      intro st st' h
      unfold synthesizeTypeClassInstancesLoop at h
      cases hs : synthesizeTypeClassInstancesStep O st with
      | error e => rw [hs] at h; cases h
      | ok st'' =>
          rw [hs] at h
          simp only at h
          by_cases hlt : st''.instances.length < st.instances.length
          · rw [if_pos hlt] at h
            exact ih st'' st' h
          · rw [if_neg hlt] at h
            have hst := Except.ok.inj h
            rcases stcStepShrinks O st st'' hs with heq | hshort
            · subst heq; rw [← hst]; exact hs
            · exact absurd hshort hlt

lemma readyToSynthesizeArgsChar :
    ∀ (args : List Expr) (it : Expr), readyToSynthesizeArgs it args = true →
      ∀ i (hi : i < args.length), (args.get ⟨i, hi⟩).hasExprMetavar = true →
        ∃ hj : i < it.telescopeDomains.length,
          isClassOutParam (it.telescopeDomains.get ⟨i, hj⟩) = true := by
  intro args
  induction args with
  | nil => intro it _ i hi; simp at hi
  | cons a rest ih =>
      intro it h i hi hm
      cases it with
      | pi bi d b =>
          unfold readyToSynthesizeArgs at h
          by_cases hcond : (a.hasExprMetavar && !isClassOutParam d) = true
          · rw [if_pos hcond] at h; cases h
          · rw [if_neg hcond] at h
            cases i with
            | zero =>
                simp only [List.get] at hm
                have : isClassOutParam d = true := by
                  cases hop : isClassOutParam d
                  · exact absurd (by simp [hm, hop]) hcond
                  · rfl
                exact ⟨by simp [Expr.telescopeDomains], by simpa [Expr.telescopeDomains]⟩
            | succ j =>
                have hj' := ih b h j (by simpa using hi) (by simpa using hm)
                obtain ⟨hjlt, hjop⟩ := hj'
                refine ⟨by simpa [Expr.telescopeDomains] using Nat.succ_lt_succ hjlt, ?_⟩
                simpa [Expr.telescopeDomains] using hjop
      | _ =>
          -- a non-pi telescope with a pending argument is never ready
          unfold readyToSynthesizeArgs at h
          cases h

/-- **C4.** (i) A pending instance metavariable is synthesized (the core
returns `true`) only when its declared type is ready; (ii) readiness means:
no metavariables at all, or every argument of the head class application that
contains one sits at a position whose declared domain is marked `out_param`;
(iii) the draining loop terminates exactly at the identity fixpoint: running
the scan step on the loop's result leaves the pending list untouched; and
(iv) the `while (true)` loop needs at most pending-length + 1 scan steps —
any budget beyond that computes the same result, so for a chain of `N`
dependent instance metavariables the loop terminates. -/
theorem c4_instance_worklist {σ φ : Type} (O : ElabOracle σ φ) :
    (∀ (st st₁ : EState σ) (mvar inferred instType : Expr) (b : Bool),
        synthesizeTypeClassInstanceCore O st mvar inferred instType = .ok (b, st₁) →
        b = true → readyToSynthesize O st.ctx instType = true) ∧
    (∀ (s : σ) (t : Expr), readyToSynthesize O s t = true →
        t.hasExprMetavar = false ∨
          ∀ i (hi : i < t.stripPis.getAppArgs.length),
            (t.stripPis.getAppArgs.get ⟨i, hi⟩).hasExprMetavar = true →
            ∃ hj : i < (O.inferType s t.stripPis.getAppFn).telescopeDomains.length,
              isClassOutParam
                ((O.inferType s t.stripPis.getAppFn).telescopeDomains.get ⟨i, hj⟩) = true) ∧
    (∀ (st st' : EState σ), synthesizeTypeClassInstances O st = .ok st' →
        synthesizeTypeClassInstancesStep O st' = .ok st') ∧
    (∀ (st : EState σ) (fuel : Nat), st.instances.length < fuel →
        synthesizeTypeClassInstancesLoop O fuel st = synthesizeTypeClassInstances O st) := by
  refine ⟨?_, ?_, ?_, ?_⟩
  · intro st st₁ mvar inferred instType b h hb
    subst hb
    unfold synthesizeTypeClassInstanceCore at h
    cases hr : readyToSynthesize O st.ctx instType
    · rw [hr] at h
      simp only [Bool.not_false, if_true] at h
      cases Except.ok.inj h
    · rfl
  · intro s t h
    unfold readyToSynthesize at h
    cases hm : t.hasExprMetavar
    · exact Or.inl rfl
    · right
      rw [hm] at h
      simp only [Bool.not_true, Bool.false_eq_true, if_false] at h
      by_cases hc : t.stripPis.getAppFn.isConstant = true
      · rw [hc] at h
        simp only [Bool.not_true, Bool.false_eq_true, if_false] at h
        exact readyToSynthesizeArgsChar t.stripPis.getAppArgs _ h
      · simp only [Bool.not_eq_true] at hc
        rw [hc] at h
        simp at h
  · intro st st' h
    exact stcLoopFixpoint O _ st st' h
  · intro st fuel hf
    exact stcLoopFuelMono O fuel (st.instances.length + 1) st hf (by omega)

end L3

namespace L3

/-- Oracle for the C4 witness: a two-element dependency chain.  `?m₁`'s class
type mentions `?m₂` at a non-output position, so `?m₁` becomes ready only
after `?m₂` has been synthesized (and thereby assigned by the definitional
cross-check). -/
def c4O : ElabOracle TState Unit :=
  { toyOracle with
    inferType := fun _ e =>
      match e with
      | .mvar 1 => .app (.const 52) (.mvar 2)
      | .mvar 2 => .app (.const 50) (.const 51)
      | .const 52 => .pi .default (.sort 0) (.sort 0)
      | _ => .sort 0
    mkClassInstanceAt := fun s _ => some (.const 60, s) }

/-- C4 witness initial state: pending chain `[?m₁, ?m₂]`. -/
def st4 : EState TState := { toySt with instances := [.mvar 1, .mvar 2] }

/-- C4 witness final state: both instances synthesized in two rounds. -/
def stF : EState TState :=
  { toySt with ctx := [(1, .const 60), (2, .const 60)], instances := [] }

/-- Witness for C4 at a concrete input: draining the two-element chain reaches
the identity fixpoint, and any budget beyond pending-length + 1 computes the
same result. -/
theorem c4_instance_worklist_witness :
    synthesizeTypeClassInstancesStep c4O stF = .ok stF ∧
    synthesizeTypeClassInstancesLoop c4O 5 st4 = synthesizeTypeClassInstances c4O st4 :=
  ⟨(c4_instance_worklist c4O).2.2.1 st4 stF rfl,
   (c4_instance_worklist c4O).2.2.2 st4 5 (by decide)⟩

/-! ### Claim C6: internal-consistency instance errors always propagate -/

/-- **C6.** When a synthesized type-class instance is not definitionally equal
to the independently inferred term at that position, the resulting error is a
plain throw: it propagates even with error recovery enabled (no diagnostic,
no typed placeholder at the failure site), and it surfaces unchanged through
the worklist step and the draining loop. -/
theorem c6_internal_consistency_propagates {σ φ : Type} (O : ElabOracle σ φ)
    (st : EState σ) (mvar inferred instType inst : Expr) (s' : σ)
    (hready : readyToSynthesize O st.ctx instType = true)
    (hsearch : O.mkClassInstanceAt st.ctx instType = some (inst, s'))
    (hneq : (O.isDefEq s' inferred inst).1 = false) :
    (∀ b : Bool,
      synthesizeTypeClassInstanceCore O { st with recoverFromErrors := b } mvar inferred instType
        = .error (.synthMismatch inst inferred)) ∧
    synthesizeTypeClassInstanceCore O st mvar inferred instType
      = .error (.synthMismatch inst inferred) ∧
    (st.instances = [mvar] →
      O.instantiateMvars st.ctx mvar = inferred →
      O.instantiateMvars st.ctx (O.inferType st.ctx inferred) = instType →
      synthesizeTypeClassInstances O st = .error (.synthMismatch inst inferred)) := by
  have key : ∀ st₀ : EState σ, st₀.ctx = st.ctx →
      synthesizeTypeClassInstanceCore O st₀ mvar inferred instType
        = .error (.synthMismatch inst inferred) := by
    intro st₀ hctx
    unfold synthesizeTypeClassInstanceCore mkInstanceCore
    rw [hctx, hready, hsearch]
    simp only [Bool.not_true, Bool.false_eq_true, if_false]
    rcases hd : O.isDefEq s' inferred inst with ⟨b₀, s₂⟩
    cases b₀
    · simp [hd]
    · rw [hd] at hneq
      simp at hneq
  refine ⟨fun b => key _ rfl, key st rfl, ?_⟩
  intro hi hinst htype
  have hclass : classifyInstances O st = [(mvar, inferred, instType)] := by
    unfold classifyInstances
    rw [hi]
    simp [hinst, htype]
  have hstep : synthesizeTypeClassInstancesStep O st
      = .error (.synthMismatch inst inferred) := by
    unfold synthesizeTypeClassInstancesStep
    rw [hclass]
    simp [hready, processInstances, key st rfl]
  unfold synthesizeTypeClassInstances
  rw [hi]
  unfold synthesizeTypeClassInstancesLoop
  rw [hstep]

/-- Oracle for the C6 witness: instance search yields `c₇₀` while inference
already produced `c₇₁`, and the two are not definitionally equal. -/
def c6O : ElabOracle TState Unit :=
  { toyOracle with
    inferType := fun _ e =>
      match e with
      | .const 71 => .const 72
      | _ => .sort 0
    mkClassInstanceAt := fun s _ => some (.const 70, s) }

/-- C6 witness state: one pending instance `?m₅`, already assigned `c₇₁` by
inference, with recovery enabled. -/
def st6 : EState TState :=
  { toySt with ctx := [(5, .const 71)], instances := [.mvar 5] }

/-- Witness for C6 at a concrete input: the mismatch error surfaces from the
draining loop even though `recoverFromErrors` is on. -/
theorem c6_internal_consistency_propagates_witness :
    synthesizeTypeClassInstances c6O st6
      = .error (.synthMismatch (.const 70) (.const 71)) :=
  (c6_internal_consistency_propagates c6O st6 (.mvar 5) (.const 71) (.const 72)
    (.const 70) [(5, .const 71)] rfl rfl rfl).2.2 rfl rfl rfl

end L3

namespace L3

/-! ## Application elaboration (`elaborator.cpp` lines 1459–1806, spec §4.2–4.3) -/

/-- C++ `arg_mask` (`Default` for ordinary applications, `InstHoExplicit` for
`@`, `AllExplicit` for `@@`). -/
inductive ArgMask where
  | default
  | instHoExplicit
  | allExplicit
deriving DecidableEq, Repr

/-- `is_thunk` (lines 1185–1191). -/
def isThunk (e : Expr) : Option Expr :=
  if isAppOf e thunkName 1 then some e.appArg else none

/-- `mk_thunk_if_needed` (lines 1193–1198). -/
def mkThunkIfNeeded (e : Expr) (thunkOf : Option Expr) : Expr :=
  match thunkOf with
  | some _ => .lam .default (.const unitName) e
  | none => e

/-- `mk_app(fn, args)`. -/
def mkAppList (f : Expr) (args : List Expr) : Expr := args.foldl .app f

/-- C++ `is_explicit(binder_info)`. -/
def BinderInfo.isExplicit : BinderInfo → Bool
  | .default => true
  | _ => false

/-- The argument-consuming loop of `visit_base_app_simple` (lines 1475–1539).
The loop walks the whnf'd function type; it never sees the application's
expected type — explicit arguments are visited against the binder domain `d`
of the head's telescope only.  `fuel` bounds the iterations (the C++ loop has
no bound; exhaustion models divergence and is unreachable under a checker that
exposes only finite telescopes).  Returns (fn, type_before_whnf, new_args,
state). -/
def visitBaseAppSimpleLoop {σ φ : Type} (O : ElabOracle σ φ) :
    Nat → EState σ → Expr → ArgMask → List Expr → Bool → Expr → Expr → List Expr →
    Except ElabErr (Expr × Expr × List Expr × EState σ)
  | 0, _, _, _, _, _, _, _, _ => .error .fuelExhausted
  | fuel+1, st, fn, amask, args, argsAlreadyVisited, typeBeforeWhnf, type, newArgs =>
    match type with
    | .pi bi d b =>
        if amask == .default && bi == .strictImplicit && args.isEmpty then
          .ok (fn, typeBeforeWhnf, newArgs, st)
        else if (amask == .default && !bi.isExplicit)
            || (amask == .instHoExplicit && !bi.isExplicit && !(bi == .instImplicit)
                && !d.isPi) then
          -- implicit argument
          let next (newArg : Expr) (st' : EState σ) :
              Except ElabErr (Expr × Expr × List Expr × EState σ) :=
            let newArg := if st'.inPattern then mkInaccessible newArg else newArg
            let tbw := b.instantiate1 newArg
            visitBaseAppSimpleLoop O fuel st' fn amask args argsAlreadyVisited tbw
              (O.whnf st'.ctx tbw) (newArgs ++ [newArg])
          if bi == .instImplicit then
            match mkInstance O st d with
            | .error e => .error e
            | .ok (newArg, st') => next newArg st'
          else
            let (newArg, s') := O.mkMetavar st.ctx d
            next newArg { st with ctx := s' }
        else
          match args with
          | [] => .ok (fn, typeBeforeWhnf, newArgs, st)
          | a :: rest =>
              -- explicit argument
              let thunkOf := if !st.inPattern then isThunk d else none
              let expectedType := (thunkOf).getD d
              let visited : Except ElabErr (Expr × EState σ) :=
                if argsAlreadyVisited then .ok (mkThunkIfNeeded a thunkOf, st)
                else if bi == .instImplicit && isPlaceholder a then
                  mkInstance O st d
                else
                  match O.visit st a (some expectedType) with
                  | .error e => .error e
                  | .ok (v, st') => .ok (mkThunkIfNeeded v thunkOf, st')
              match visited with
              | .error e => .error e
              | .ok (newArg, st₁) =>
                  let newArgType := O.inferType st₁.ctx newArg
                  match ensureHasType O st₁ newArg newArgType d with
                  | .error e => .error e
                  | .ok (none, _) => .error (.appTypeMismatch newArg newArgType d)
                  | .ok (some newArg', st₂) =>
                      let tbw := b.instantiate1 newArg'
                      visitBaseAppSimpleLoop O fuel st₂ fn amask rest argsAlreadyVisited
                        tbw (O.whnf st₂.ctx tbw) (newArgs ++ [newArg'])
    | _ =>
        match args with
        | [] => .ok (fn, typeBeforeWhnf, newArgs, st)
        | _ :: _ =>
            let newFn := mkAppList fn newArgs
            match O.ensureFunction st newFn with
            | .error e => .error e
            | .ok (fn', st') =>
                let tbw := O.inferType st'.ctx fn'
                visitBaseAppSimpleLoop O fuel st' fn' amask args argsAlreadyVisited tbw
                  (O.whnf st'.ctx tbw) []

/-- `elaborator::visit_base_app_simple` (lines 1459–1556): the single-pass
elaborator.  The expected type plays no role in the argument loop; it is
consulted only at the very end, for a final `ensure_has_type` whose failure is
deliberately *not* an error here (the caller produces a better one). -/
def visitBaseAppSimple {σ φ : Type} (O : ElabOracle σ φ) (fuel : Nat) (st : EState σ)
    (fn : Expr) (amask : ArgMask) (args : List Expr) (argsAlreadyVisited : Bool)
    (expected? : Option Expr) : Except ElabErr (Expr × EState σ) :=
  let fnType := O.inferType st.ctx fn
  match visitBaseAppSimpleLoop O fuel st fn amask args argsAlreadyVisited fnType
      (O.whnf st.ctx fnType) [] with
  | .error e => .error e
  | .ok (fn', typeBeforeWhnf, newArgs, st₁) =>
      let type₀ := O.instantiateMvars st₁.ctx typeBeforeWhnf
      let (newType?, etaArgs, extraArgs, st₂) := O.processOptAuto st₁ type₀
      let type₁ := newType?.getD type₀
      let r := O.funWrap etaArgs (mkAppList fn' (newArgs ++ extraArgs))
      match expected? with
      | none => .ok (r, st₂)
      | some expectedType =>
          match ensureHasType O st₂ r type₁ expectedType with
          | .error e => .error e
          | .ok (some r', st₃) => .ok (r', st₃)
          | .ok (none, st₃) => .ok (r, st₃)

/-- `elaborator::visit_base_app_core` (lines 1558–1618): use the two-pass
strategy only for a `WithExpectedType`-strategy head with not-yet-visited
arguments, a default mask and a known expected type; on first-pass failure
(run with recovery disabled, as by the `flet` there) restore the snapshot and
fall back to `visit_base_app_simple`, nesting the first-pass error into the
fallback's error if that also fails. -/
def visitBaseAppCore {σ φ : Type} (O : ElabOracle σ φ) (fuel : Nat) (st : EState σ)
    (fn : Expr) (amask : ArgMask) (args : List Expr) (argsAlreadyVisited : Bool)
    (expected? : Option Expr) : Except ElabErr (Expr × EState σ) :=
  match expected? with
  | none => visitBaseAppSimple O fuel st fn amask args argsAlreadyVisited none
  | some expectedType =>
      if argsAlreadyVisited || amask != ArgMask.default || !O.isWithExpectedCandidate fn then
        visitBaseAppSimple O fuel st fn amask args argsAlreadyVisited (some expectedType)
      else
        match O.firstPass { st with recoverFromErrors := false } fn args expectedType with
        | .ok (info, st₁) =>
            O.secondPass { st₁ with recoverFromErrors := st.recoverFromErrors } fn args info
        | .error e₁ =>
            match visitBaseAppSimple O fuel st fn amask args argsAlreadyVisited
                (some expectedType) with
            | .ok r => .ok r
            | .error e₂ => .error (.nested e₂ [e₁] [])

/-- `elaborator::visit_overload_candidate` (lines 1625–1628). -/
def visitOverloadCandidate {σ φ : Type} (O : ElabOracle σ φ) (fuel : Nat) (st : EState σ)
    (fn : Expr) (args : List Expr) (expected? : Option Expr) :
    Except ElabErr (Expr × EState σ) :=
  visitBaseAppCore O fuel st fn .default args true expected?

end L3

namespace L3

/-! ## Overload resolution (`elaborator.cpp` lines 1630–1806, spec §4.3) -/

/-- The argument pre-visit of `visit_overloaded_app_core` (lines 1644–1647):
every argument is visited once, with **no** expected type, before the common
snapshot is taken. -/
def preVisitArgs {σ φ : Type} (O : ElabOracle σ φ) :
    EState σ → List Expr → Except ElabErr (List Expr × EState σ)
  | st, [] => .ok ([], st)
  | st, a :: rest =>
      match O.visit st a none with
      | .error e => .error e
      | .ok (a', st') =>
          match preVisitArgs O st' rest with
          | .error e => .error e
          | .ok (as, st'') => .ok (a' :: as, st'')

/-- One candidate trial of `visit_overloaded_app_core` (lines 1653–1683),
starting from the common snapshot `S` (the C++ `S.restore(*this)`), with
recovery disabled for the duration of the trial (the `flet` there; the
snapshot mechanism does not capture that flag, so a committed candidate state
carries the original flag).  When an expected type is present the candidate's
final type must pass `ensure_has_type` against it, else the trial fails with
an invalid-overload error. -/
def tryOvCandidate {σ φ : Type} (O : ElabOracle σ φ) (fuel : Nat) (S : EState σ)
    (newArgs : List Expr) (expected? : Option Expr) (hasArgs : Bool) (fn : Expr) :
    Except ElabErr (Expr × EState σ) :=
  match O.visitFunction { S with recoverFromErrors := false } fn hasArgs with
  | .error e => .error e
  | .ok (newFn, st₁) =>
      match visitOverloadCandidate O fuel st₁ newFn newArgs expected? with
      | .error e => .error e
      | .ok (c, st₂) =>
          match synthesizeTypeClassInstances O st₂ with
          | .error e => .error e
          | .ok st₃ =>
              match expected? with
              | none => .ok (c, { st₃ with recoverFromErrors := S.recoverFromErrors })
              | some expectedType =>
                  match ensureHasType O st₃ c (O.inferType st₃.ctx c) expectedType with
                  | .error e => .error e
                  | .ok (some _, st₄) =>
                      .ok (c, { st₄ with recoverFromErrors := S.recoverFromErrors })
                  | .ok (none, _) =>
                      .error (.invalidOverload c (O.inferType st₃.ctx c) expectedType)

/-- The candidate fold of `visit_overloaded_app_core`: try every candidate
from the same snapshot, collecting in order the successes (with their
states/snapshots) and the failures. -/
def ovTrials {σ φ : Type} (O : ElabOracle σ φ) (fuel : Nat) (S : EState σ)
    (newArgs : List Expr) (expected? : Option Expr) (hasArgs : Bool) :
    List Expr → List (Expr × EState σ) × List ElabErr
  | [] => ([], [])
  | fn :: fns =>
      let rest := ovTrials O fuel S newArgs expected? hasArgs fns
      match tryOvCandidate O fuel S newArgs expected? hasArgs fn with
      | .ok cs => (cs :: rest.1, rest.2)
      | .error e => (rest.1, e :: rest.2)

/-- `elaborator::visit_overloaded_app_core` (lines 1642–1706): pre-visit the
arguments, snapshot, try every candidate from that snapshot; zero survivors →
error listing every failure, exactly one → restore its snapshot and commit,
more than one → ambiguity error listing all survivors. -/
def visitOverloadedAppAfterArgs {σ φ : Type} (O : ElabOracle σ φ) (fuel : Nat)
    (S : EState σ) (fns newArgs : List Expr) (expected? : Option Expr) (hasArgs : Bool) :
    Except ElabErr (Expr × EState σ) :=
  let (cands, errs) := ovTrials O fuel S newArgs expected? hasArgs fns
  match cands with
  | [] => .error (.noOverloadApplicable fns errs)
  | [(c, stC)] => .ok (c, stC)
  | _ => .error (.ambiguousOverload (cands.map (·.1)))

/-- `elaborator::visit_overloaded_app_core`, entry: pre-visit the arguments,
take the common snapshot, then resolve. -/
def visitOverloadedAppCore {σ φ : Type} (O : ElabOracle σ φ) (fuel : Nat)
    (st : EState σ) (fns args : List Expr) (expected? : Option Expr) :
    Except ElabErr (Expr × EState σ) :=
  match preVisitArgs O st args with
  | .error e => .error e
  | .ok (newArgs, S) =>
      visitOverloadedAppAfterArgs O fuel S fns newArgs expected? (!args.isEmpty)

/-- One first-pass candidate trial of `visit_overloaded_app_with_expected`
(lines 1713–1727), starting from the snapshot `S`. -/
def fpTrial {σ φ : Type} (O : ElabOracle σ φ) (S : EState σ) (args : List Expr)
    (expectedType : Expr) (fn : Expr) : Except ElabErr (Expr × φ × EState σ) :=
  match O.visitFunction S fn (!args.isEmpty) with
  | .error e => .error e
  | .ok (newFn, st₁) =>
      match O.firstPass st₁ newFn args expectedType with
      | .error e => .error e
      | .ok (info, st₂) => .ok (newFn, info, st₂)

/-- The first-pass candidate fold of `visit_overloaded_app_with_expected`. -/
def fpTrials {σ φ : Type} (O : ElabOracle σ φ) (S : EState σ) (args : List Expr)
    (expectedType : Expr) : List Expr → List (Expr × φ × EState σ) × List ElabErr
  | [] => ([], [])
  | fn :: fns =>
      let rest := fpTrials O S args expectedType fns
      match fpTrial O S args expectedType fn with
      | .ok c => (c :: rest.1, rest.2)
      | .error e => (rest.1, e :: rest.2)

/-- `elaborator::visit_overloaded_app_with_expected` (lines 1708–1784): run
the expected-type-directed first pass on every candidate from a common
snapshot.  With exactly one survivor, restore it and run the second pass
(nesting its error, if any, over the other candidates' failures).  With zero
or several survivors, restore the original snapshot and retry via
`visit_overloaded_app_core` — whose candidates elaborate all arguments
without expected-type propagation but still check the final type against the
expected type — nesting its error, if any. -/
def visitOverloadedAppWithExpected {σ φ : Type} (O : ElabOracle σ φ) (fuel : Nat)
    (st : EState σ) (fns args : List Expr) (expectedType : Expr) :
    Except ElabErr (Expr × EState σ) :=
  let (cands, errs) := fpTrials O st args expectedType fns
  match cands with
  | [] =>
      match visitOverloadedAppCore O fuel st fns args (some expectedType) with
      | .ok r => .ok r
      | .error e => .error (.nested e errs fns)
  | [(fn, info, stC)] =>
      match O.secondPass stC fn args info with
      | .ok r => .ok r
      | .error e => .error (.nested e errs [fn])
  | _ =>
      match visitOverloadedAppCore O fuel st fns args (some expectedType) with
      | .ok r => .ok r
      | .error e => .error (.nested e [] (cands.map (·.1)))

/-- `elaborator::visit_overloaded_app` (lines 1786–1806). -/
def visitOverloadedApp {σ φ : Type} (O : ElabOracle σ φ) (fuel : Nat) (st : EState σ)
    (fns args : List Expr) (expected? : Option Expr) :
    Except ElabErr (Expr × EState σ) :=
  match expected? with
  | some expectedType => visitOverloadedAppWithExpected O fuel st fns args expectedType
  | none =>
      match visitOverloadedAppCore O fuel st fns args none with
      | .ok r => .ok r
      | .error e => .error (.nested e [] [])

end L3

namespace L3

def exceptToOption {ε α : Type} : Except ε α → Option α
  | .ok a => some a
  | .error _ => none

def exceptErr {ε α : Type} : Except ε α → Option ε
  | .ok _ => none
  | .error e => some e

lemma ovTrialsEq {σ φ : Type} (O : ElabOracle σ φ) (fuel : Nat) (S : EState σ)
    (newArgs : List Expr) (expected? : Option Expr) (hasArgs : Bool) (fns : List Expr) :
    ovTrials O fuel S newArgs expected? hasArgs fns =
      (fns.filterMap fun fn => exceptToOption (tryOvCandidate O fuel S newArgs expected? hasArgs fn),
       fns.filterMap fun fn => exceptErr (tryOvCandidate O fuel S newArgs expected? hasArgs fn)) := by
  induction fns with
  | nil => rfl
  | cons fn fns ih =>
      unfold ovTrials
      rw [ih]
      cases h : tryOvCandidate O fuel S newArgs expected? hasArgs fn <;>
        simp [List.filterMap_cons, h, exceptToOption, exceptErr]

lemma fpTrialsEq {σ φ : Type} (O : ElabOracle σ φ) (S : EState σ)
    (args : List Expr) (expectedType : Expr) (fns : List Expr) :
    fpTrials O S args expectedType fns =
      (fns.filterMap fun fn => exceptToOption (fpTrial O S args expectedType fn),
       fns.filterMap fun fn => exceptErr (fpTrial O S args expectedType fn)) := by
  induction fns with
  | nil => rfl
  | cons fn fns ih =>
      unfold fpTrials
      rw [ih]
      cases h : fpTrial O S args expectedType fn <;>
        simp [List.filterMap_cons, h, exceptToOption, exceptErr]

/-- **C1.**  Overload resolution from a common snapshot: (i) if every
candidate's trial fails, the error lists every candidate's failure reason in
order; (ii) if the trials leave exactly one survivor, that candidate's
result and snapshot are committed; (iii) hence for two candidates of which
exactly one succeeds, the chosen result is the same for both candidate
orders; (iv) if at least two survive, an ambiguity error lists all survivors
in order — no tie-break by order. -/
theorem c1_overload_resolution {σ φ : Type} (O : ElabOracle σ φ) (fuel : Nat)
    (st S : EState σ) (args newArgs : List Expr) (expected? : Option Expr)
    (hpre : preVisitArgs O st args = .ok (newArgs, S)) :
    (∀ fns : List Expr,
        (∀ fn ∈ fns, ∃ e,
          tryOvCandidate O fuel S newArgs expected? (!args.isEmpty) fn = .error e) →
        visitOverloadedAppCore O fuel st fns args expected? =
          .error (.noOverloadApplicable fns
            (fns.filterMap fun fn =>
              exceptErr (tryOvCandidate O fuel S newArgs expected? (!args.isEmpty) fn)))) ∧
    (∀ (fns : List Expr) (c : Expr) (stC : EState σ),
        (fns.filterMap fun fn =>
          exceptToOption (tryOvCandidate O fuel S newArgs expected? (!args.isEmpty) fn))
            = [(c, stC)] →
        visitOverloadedAppCore O fuel st fns args expected? = .ok (c, stC)) ∧
    (∀ (f g c : Expr) (stC : EState σ) (e : ElabErr),
        tryOvCandidate O fuel S newArgs expected? (!args.isEmpty) f = .error e →
        tryOvCandidate O fuel S newArgs expected? (!args.isEmpty) g = .ok (c, stC) →
        visitOverloadedAppCore O fuel st [f, g] args expected? = .ok (c, stC) ∧
        visitOverloadedAppCore O fuel st [g, f] args expected? = .ok (c, stC)) ∧
    (∀ fns : List Expr,
        2 ≤ (fns.filterMap fun fn =>
          exceptToOption (tryOvCandidate O fuel S newArgs expected? (!args.isEmpty) fn)).length →
        visitOverloadedAppCore O fuel st fns args expected? =
          .error (.ambiguousOverload
            ((fns.filterMap fun fn =>
              exceptToOption (tryOvCandidate O fuel S newArgs expected? (!args.isEmpty) fn)).map
                Prod.fst))) := by
  have hred : ∀ fns : List Expr,
      visitOverloadedAppCore O fuel st fns args expected? =
        visitOverloadedAppAfterArgs O fuel S fns newArgs expected? (!args.isEmpty) := by
    intro fns
    unfold visitOverloadedAppCore
    rw [hpre]
  have hone : ∀ (fns : List Expr) (c : Expr) (stC : EState σ),
      (fns.filterMap fun fn =>
        exceptToOption (tryOvCandidate O fuel S newArgs expected? (!args.isEmpty) fn))
          = [(c, stC)] →
      visitOverloadedAppCore O fuel st fns args expected? = .ok (c, stC) := by
    intro fns c stC h
    rw [hred fns]
    unfold visitOverloadedAppAfterArgs
    rw [ovTrialsEq, h]
  refine ⟨?_, hone, ?_, ?_⟩
  · intro fns hall
    have hnil : (fns.filterMap fun fn =>
        exceptToOption (tryOvCandidate O fuel S newArgs expected? (!args.isEmpty) fn)) = [] := by
      rw [List.filterMap_eq_nil_iff]
      intro fn hfn
      obtain ⟨e, he⟩ := hall fn hfn
      rw [he]
      rfl
    rw [hred fns]
    unfold visitOverloadedAppAfterArgs
    rw [ovTrialsEq, hnil]
  · intro f g c stC e hf hg
    constructor
    · apply hone
      simp [List.filterMap_cons, hf, hg, exceptToOption]
    · apply hone
      simp [List.filterMap_cons, hf, hg, exceptToOption]
  · intro fns h2
    rw [hred fns]
    unfold visitOverloadedAppAfterArgs
    rcases hc : (fns.filterMap fun fn =>
        exceptToOption (tryOvCandidate O fuel S newArgs expected? (!args.isEmpty) fn)) with
      _ | ⟨a, _ | ⟨b, t⟩⟩
    · rw [hc] at h2; simp at h2
    · rw [hc] at h2; simp at h2
    · rw [ovTrialsEq, hc]

end L3

namespace L3

/-- Oracle for the C1 witness: resolving the head `c₈` fails, any other head
elaborates to itself. -/
def c1O : ElabOracle TState Unit :=
  { toyOracle with
    visitFunction := fun st e _ =>
      if e == .const 8 then .error (.msg "unknown identifier") else .ok (e, st) }

/-- Witness for C1 at a concrete input: with candidates `{c₈, c₉}` of which
exactly one elaborates against the expected type, the committed result is the
same for both candidate orders. -/
theorem c1_overload_resolution_witness :
    visitOverloadedAppCore c1O 1 toySt [.const 8, .const 9] [] (some (.sort 0))
      = .ok (.const 9, toySt) ∧
    visitOverloadedAppCore c1O 1 toySt [.const 9, .const 8] [] (some (.sort 0))
      = .ok (.const 9, toySt) :=
  (c1_overload_resolution c1O 1 toySt toySt [] [] (some (.sort 0)) rfl).2.2.1
    (.const 8) (.const 9) (.const 9) toySt (.msg "unknown identifier") rfl rfl

/-! ### Claim C7: two-pass fallback atomicity -/

/-- **C7.**  For a two-pass candidate head (`WithExpectedType` strategy,
default mask, arguments not yet visited, expected type known), a first-pass
failure (recovery disabled during the attempt) makes `visit_base_app_core`
fall back to `visit_base_app_simple` — running it on the state from before
the attempt (the restored snapshot) — and if the fallback also fails, the
reported error nests the fallback's error with the first-pass error kept as
context. -/
theorem c7_two_pass_fallback {σ φ : Type} (O : ElabOracle σ φ) (fuel : Nat)
    (st : EState σ) (fn : Expr) (args : List Expr) (expectedType : Expr) (e₁ : ElabErr)
    (hcand : O.isWithExpectedCandidate fn = true)
    (hfp : O.firstPass { st with recoverFromErrors := false } fn args expectedType
      = .error e₁) :
    (∀ r, visitBaseAppSimple O fuel st fn .default args false (some expectedType) = .ok r →
        visitBaseAppCore O fuel st fn .default args false (some expectedType) = .ok r) ∧
    (∀ e₂, visitBaseAppSimple O fuel st fn .default args false (some expectedType)
        = .error e₂ →
      visitBaseAppCore O fuel st fn .default args false (some expectedType)
        = .error (.nested e₂ [e₁] [])) := by
  constructor
  · intro r hr
    unfold visitBaseAppCore
    simp only [hcand, Bool.not_true, bne_self_eq_false, Bool.or_false, Bool.false_or,
      Bool.or_self, Bool.false_eq_true, if_false, hfp, hr]
  · intro e₂ h₂
    unfold visitBaseAppCore
    simp only [hcand, Bool.not_true, bne_self_eq_false, Bool.or_false, Bool.false_or,
      Bool.or_self, Bool.false_eq_true, if_false, hfp, h₂]

/-- Oracle for the C7 witness (successful fallback): the head is a two-pass
candidate but the first pass fails; the fallback succeeds. -/
def c7O : ElabOracle TState Unit :=
  { toyOracle with
    isWithExpectedCandidate := fun _ => true
    firstPass := fun _ _ _ _ => .error (.msg "first pass failed") }

/-- Oracle for the C7 witness (failing fallback): additionally the head's
type is a pi, and visiting the argument fails. -/
def c7O₂ : ElabOracle TState Unit :=
  { c7O with
    inferType := fun _ _ => .pi .default (.sort 0) (.sort 0)
    visit := fun _ _ _ => .error (.msg "argument failed") }

/-- Witness for C7 at concrete inputs: the fallback runs from the pre-attempt
state and commits on success; when it fails too, the first-pass error stays
nested in the reported error. -/
theorem c7_two_pass_fallback_witness :
    visitBaseAppCore c7O 1 toySt (.const 9) .default [] false (some (.sort 0))
      = .ok (.const 9, toySt) ∧
    visitBaseAppCore c7O₂ 1 toySt (.const 9) .default [.const 3] false (some (.sort 0))
      = .error (.nested (.msg "argument failed") [.msg "first pass failed"] []) :=
  ⟨(c7_two_pass_fallback c7O 1 toySt (.const 9) [] (.sort 0)
      (.msg "first pass failed") rfl rfl).1 (.const 9, toySt) rfl,
   (c7_two_pass_fallback c7O₂ 1 toySt (.const 9) [.const 3] (.sort 0)
      (.msg "first pass failed") rfl rfl).2 (.msg "argument failed") rfl⟩

end L3

namespace L3

/-! ### Claim C8: overload retry without expected-type propagation -/

/-- **C8.**  When expected-type-directed first-pass resolution leaves zero
survivors or more than one, `visit_overloaded_app_with_expected` restores the
original snapshot and retries via `visit_overloaded_app_core` with the same
expected type — the strategy whose candidates elaborate all arguments with no
expected type (`preVisitArgs … none`) but still pass each candidate's final
type through `ensure_has_type` against the expected type — and only wraps
that retry's outcome (nesting its error, if any); no failure or ambiguity is
declared before the retry.  The last conjunct exhibits the retained final
check: every candidate the retry commits passed `ensure_has_type` against the
expected type. -/
theorem c8_overload_retry {σ φ : Type} (O : ElabOracle σ φ) (fuel : Nat) (st : EState σ)
    (fns args : List Expr) (expectedType : Expr) :
    ((fns.filterMap fun fn => exceptToOption (fpTrial O st args expectedType fn)) = [] →
      (∀ r, visitOverloadedAppCore O fuel st fns args (some expectedType) = .ok r →
        visitOverloadedAppWithExpected O fuel st fns args expectedType = .ok r) ∧
      (∀ e, visitOverloadedAppCore O fuel st fns args (some expectedType) = .error e →
        visitOverloadedAppWithExpected O fuel st fns args expectedType =
          .error (.nested e
            (fns.filterMap fun fn => exceptErr (fpTrial O st args expectedType fn)) fns))) ∧
    (∀ (c₁ c₂ : Expr × φ × EState σ) (rest : List (Expr × φ × EState σ)),
      (fns.filterMap fun fn => exceptToOption (fpTrial O st args expectedType fn))
          = c₁ :: c₂ :: rest →
      (∀ r, visitOverloadedAppCore O fuel st fns args (some expectedType) = .ok r →
        visitOverloadedAppWithExpected O fuel st fns args expectedType = .ok r) ∧
      (∀ e, visitOverloadedAppCore O fuel st fns args (some expectedType) = .error e →
        visitOverloadedAppWithExpected O fuel st fns args expectedType =
          .error (.nested e [] ((c₁ :: c₂ :: rest).map fun x => x.1)))) ∧
    (∀ (S : EState σ) (newArgs : List Expr) (hasArgs : Bool) (fn c : Expr)
        (stC : EState σ),
      tryOvCandidate O fuel S newArgs (some expectedType) hasArgs fn = .ok (c, stC) →
      ∃ (st₃ st₄ : EState σ) (w : Expr),
        ensureHasType O st₃ c (O.inferType st₃.ctx c) expectedType = .ok (some w, st₄) ∧
        stC = { st₄ with recoverFromErrors := S.recoverFromErrors }) := by
  refine ⟨?_, ?_, ?_⟩
  · intro hnil
    constructor
    · intro r hr
      unfold visitOverloadedAppWithExpected
      rw [fpTrialsEq, hnil, hr]
    · intro e he
      unfold visitOverloadedAppWithExpected
      rw [fpTrialsEq, hnil, he]
  · intro c₁ c₂ rest hc
    constructor
    · intro r hr
      unfold visitOverloadedAppWithExpected
      rw [fpTrialsEq, hc, hr]
    · intro e he
      unfold visitOverloadedAppWithExpected
      rw [fpTrialsEq, hc, he]
  · intro S newArgs hasArgs fn c stC h
    unfold tryOvCandidate at h
    cases hvf : O.visitFunction { S with recoverFromErrors := false } fn hasArgs with
    | error e => rw [hvf] at h; cases h
    | ok p =>
        rcases p with ⟨newFn, st₁⟩
        rw [hvf] at h
        simp only at h
        cases hvc : visitOverloadCandidate O fuel st₁ newFn newArgs (some expectedType) with
        | error e => rw [hvc] at h; cases h
        | ok q =>
            rcases q with ⟨c', st₂⟩
            rw [hvc] at h
            simp only at h
            cases hsy : synthesizeTypeClassInstances O st₂ with
            | error e => rw [hsy] at h; cases h
            | ok st₃ =>
                rw [hsy] at h
                simp only at h
                cases hen : ensureHasType O st₃ c' (O.inferType st₃.ctx c') expectedType with
                | error e => rw [hen] at h; cases h
                | ok w =>
                    rcases w with ⟨w?, st₄⟩
                    rw [hen] at h
                    cases w? with
                    | none => simp at h
                    | some w =>
                        simp only [Except.ok.injEq, Prod.mk.injEq] at h
                        obtain ⟨hc', hstC⟩ := h
                        subst hc'
                        exact ⟨st₃, st₄, w, hen, hstC.symm⟩

/-- Oracle for the C8 witness: the expected-type-directed first pass fails on
every candidate, while the basic strategy succeeds. -/
def c8O : ElabOracle TState Unit :=
  { toyOracle with
    firstPass := fun _ _ _ _ => .error (.msg "first pass failed") }

/-- Witness for C8 at a concrete input: zero first-pass survivors, and the
resolution is the basic retry's successful outcome; the committed candidate
passed the final expected-type check. -/
theorem c8_overload_retry_witness :
    visitOverloadedAppWithExpected c8O 1 toySt [.const 9] [] (.sort 0)
      = .ok (.const 9, toySt) ∧
    (∃ (st₃ st₄ : EState TState) (w : Expr),
      ensureHasType c8O st₃ (.const 9) (c8O.inferType st₃.ctx (.const 9)) (.sort 0)
        = .ok (some w, st₄) ∧
      toySt = { st₄ with recoverFromErrors := toySt.recoverFromErrors }) :=
  ⟨((c8_overload_retry c8O 1 toySt [.const 9] [] (.sort 0)).1 rfl).1
      (.const 9, toySt) rfl,
   (c8_overload_retry c8O 1 toySt [.const 9] [] (.sort 0)).2.2 toySt [] false
      (.const 9) (.const 9) toySt rfl⟩

end L3

namespace L3

/-! ## Full `synthesize` and eliminator application (`elaborator.cpp`
lines 993–1151, 3064–3077, 3192–3196; spec §4.4, §4.6) -/

def natName : Name := 1020

/-- `elaborator::get_default_numeral_type` (lines 3064–3067). -/
def getDefaultNumeralType : Expr := .const natName

/-- `elaborator::synthesize_numeral_types` (lines 3069–3077): force every
still-unresolved numeral-type metavariable to the default; a failure to
equate is a reported, recoverable error.  Clears the pending list. -/
def synthesizeNumeralTypes {σ φ : Type} (O : ElabOracle σ φ) (st : EState σ) :
    Except ElabErr (EState σ) :=
  let rec go (st : EState σ) : List Expr → Except ElabErr (EState σ)
    | [] => .ok { st with numeralTypes := [] }
    | A :: rest =>
        if (O.instantiateMvars st.ctx A).isMetavar then
          match O.assignMvar st.ctx A getDefaultNumeralType with
          | some s' => go { st with ctx := s' } rest
          | none =>
              if st.recoverFromErrors then
                go { st with hasErrors := true } rest
              else .error (.msg "invalid numeral, failed to force numeral to be a nat")
        else go st rest
  go st st.numeralTypes

/-- `elaborator::synthesize` (lines 3192–3196): drain numeral defaults, then
type-class instances, then tactic blocks. -/
def synthesize {σ φ : Type} (O : ElabOracle σ φ) (st : EState σ) :
    Except ElabErr (EState σ) :=
  match synthesizeNumeralTypes O st with
  | .error e => .error e
  | .ok st₁ =>
      match synthesizeTypeClassInstances O st₁ with
      | .error e => .error e
      | .ok st₂ => O.synthesizeUsingTactics st₂

/-- The per-head eliminator data (`elim_info`): total arity, number of
explicit arguments, the motive's argument index, and the "key" argument
positions used to compute the motive. -/
structure ElimInfo where
  arity : Nat
  nexplicit : Nat
  motiveIdx : Nat
  idxs : List Nat
deriving DecidableEq, Repr

/-- The first pass of `visit_elim_app` (lines 1027–1076): walk the recursor's
telescope; arguments at key positions are elaborated fully (visit, full
`synthesize`, instantiate) and rejected if a metavariable remains, since they
drive motive computation; other explicit positions get metavariables and are
postponed; implicit/instance positions get metavariables/instances.  Returns
(state, remaining applied type, new_args, postponed, leftover surface args).
`fuel` bounds the iterations (the C++ loop is bounded only by the telescope
the checker exposes). -/
def elimFirstPassLoop {σ φ : Type} (O : ElabOracle σ φ) (fnName : Name) (info : ElimInfo) :
    Nat → EState σ → Expr → Nat → List Expr → List Expr → List (Option Expr) →
    Except ElabErr (EState σ × Expr × List Expr × List (Option Expr) × List Expr)
  | 0, _, _, _, _, _, _ => .error .fuelExhausted
  | fuel+1, st, type, i, args, newArgs, postponed =>
    match type with
    | .pi bi d b =>
        let continueWith (st' : EState σ) (newArg : Expr) (post : Option Expr)
            (args' : List Expr) :
            Except ElabErr (EState σ × Expr × List Expr × List (Option Expr) × List Expr) :=
          elimFirstPassLoop O fnName info fuel st'
            (O.tryToPi st'.ctx (b.instantiate1 newArg)) (i + 1) args'
            (newArgs ++ [newArg]) (postponed ++ [post])
        if info.idxs.contains i then
          match args with
          | [] => .error (.msg "ill-formed eliminator application")
          | a :: rest =>
              match O.visit st a (some d) with
              | .error e => .error e
              | .ok (newArg₀, st₁) =>
                  match synthesize O st₁ with
                  | .error e => .error e
                  | .ok st₂ =>
                      let newArg := O.instantiateMvars st₂.ctx newArg₀
                      if newArg.hasExprMetavar then
                        .error (.elimKeyArgHasMvar fnName newArg)
                      else
                        let newArgType := O.inferType st₂.ctx newArg
                        let (ok, s₃) := O.isDefEq st₂.ctx newArgType d
                        if !ok then .error (.appTypeMismatch newArg newArgType d)
                        else continueWith { st₂ with ctx := s₃ } newArg none rest
        else if bi.isExplicit then
          match args with
          | [] => .error (.msg "ill-formed eliminator application")
          | a :: rest =>
              let (newArg, s₁) := O.mkMetavar st.ctx d
              continueWith { st with ctx := s₁ } newArg (some a) rest
        else if bi == .instImplicit then
          match mkInstance O st d with
          | .error e => .error e
          | .ok (newArg, st₁) => continueWith st₁ newArg none args
        else
          let (newArg, s₁) := O.mkMetavar st.ctx d
          continueWith { st with ctx := s₁ } newArg none args
    | _ => .ok (st, type, newArgs, postponed, args)

/-- The extra-argument pass of `visit_elim_app` (lines 1081–1084): arguments
beyond the recursor's telescope are visited with no expected type. -/
def elimVisitExtra {σ φ : Type} (O : ElabOracle σ φ) :
    EState σ → List Expr → Except ElabErr (List Expr × EState σ)
  | st, [] => .ok ([], st)
  | st, a :: rest =>
      match O.visit st a none with
      | .error e => .error e
      | .ok (a', st') =>
          match elimVisitExtra O st' rest with
          | .error e => .error e
          | .ok (as, st'') => .ok (a' :: as, st'')

/-- The postponed-argument pass of `visit_elim_app` (lines 1123–1141). -/
def elimPostponed {σ φ : Type} (O : ElabOracle σ φ) :
    EState σ → List (Expr × Option Expr) → Except ElabErr (List Expr × EState σ)
  | st, [] => .ok ([], st)
  | st, (m, none) :: rest =>
      match elimPostponed O st rest with
      | .error e => .error e
      | .ok (as, st') => .ok (m :: as, st')
  | st, (m, some arg) :: rest =>
      let newArgType := O.instantiateMvars st.ctx (O.inferType st.ctx m)
      match O.visit st arg (some newArgType) with
      | .error e => .error e
      | .ok (newArg, st₁) =>
          let (ok, s₂) := O.isDefEq st₁.ctx m newArg
          if !ok then .error (.appTypeMismatch newArg (O.inferType st₁.ctx newArg) newArgType)
          else
            match elimPostponed O { st₁ with ctx := s₂ } rest with
            | .error e => .error e
            | .ok (as, st') => .ok (newArg :: as, st')

/-- The motive-and-commit tail of `visit_elim_app` (lines 1087–1150): fold the
extra arguments out of the expected type by keyed abstraction, compute the
candidate motive from the keys of the applied recursor type, unify it with
the motive argument, then elaborate the postponed arguments (any failure
there is nested under the inferred-motive context). -/
def elimSecondPhase {σ φ : Type} (O : ElabOracle σ φ) (st : EState σ) (fn : Expr)
    (info : ElimInfo) (newArgs : List Expr) (postponed : List (Option Expr))
    (extraArgs : List Expr) (type expectedType : Expr) :
    Except ElabErr (Expr × EState σ) :=
  let expectedType := extraArgs.foldr
    (fun a acc =>
      let a' := O.instantiateMvars st.ctx a
      Expr.pi .default (O.instantiateMvars st.ctx (O.inferType st.ctx a'))
        (O.kabstract st.ctx acc a'))
    expectedType
  let motive := (type.getAppArgs).foldr
    (fun k acc =>
      let k' := O.instantiateMvars st.ctx k
      Expr.lam .default (O.inferType st.ctx k') (O.kabstract st.ctx acc k'))
    expectedType
  let motiveArg := newArgs.getD info.motiveIdx (.sort 0)
  let (ok, s₁) := O.isDefEq st.ctx motiveArg motive
  if !ok then .error .elimMotiveFailed
  else
    match elimPostponed O { st with ctx := s₁ } (newArgs.zip postponed) with
    | .error e => .error (.nested e [] [motive])
    | .ok (finalArgs, st₂) =>
        .ok (O.instantiateMvars st₂.ctx (mkAppList (mkAppList fn finalArgs) extraArgs), st₂)

/-- `elaborator::visit_elim_app` (lines 993–1151). -/
def visitElimApp {σ φ : Type} (O : ElabOracle σ φ) (fuel : Nat) (st : EState σ)
    (fn : Expr) (info : ElimInfo) (args : List Expr) (expected? : Option Expr) :
    Except ElabErr (Expr × EState σ) :=
  match expected? with
  | none => .error (.elimNoExpectedType fn.constName)
  | some et₀ =>
      match synthesizeTypeClassInstances O st with
      | .error e => .error e
      | .ok st₁ =>
          let expectedType := O.instantiateMvars st₁.ctx et₀
          if expectedType.hasExprMetavar then
            .error (.elimExpectedTypeHasMvar fn.constName expectedType)
          else
            let fnType := O.tryToPi st₁.ctx (O.inferType st₁.ctx fn)
            match elimFirstPassLoop O fn.constName info fuel st₁ fnType 0 args [] [] with
            | .error e => .error e
            | .ok (st₂, type, newArgs, postponed, leftover) =>
                match elimVisitExtra O st₂ leftover with
                | .error e => .error e
                | .ok (extraArgs, st₃) =>
                    match synthesize O st₃ with
                    | .error e => .error e
                    | .ok st₄ =>
                        elimSecondPhase O st₄ fn info newArgs postponed extraArgs
                          type expectedType

end L3

namespace L3

/-! ### Claim C9: eliminator elaboration error conditions -/

/-- **C9.**  `visit_elim_app` never produces a term — it raises an elaboration
error — when no expected type is given, or when the expected type still
contains metavariables after draining instances and instantiating; and a key
argument (one used to compute the motive) that elaborates to a term with a
residual metavariable raises an error, which propagates out of
`visit_elim_app`. -/
theorem c9_elim_app_errors {σ φ : Type} (O : ElabOracle σ φ) (fuel : Nat)
    (st : EState σ) (fn : Expr) (info : ElimInfo) (args : List Expr) :
    (visitElimApp O fuel st fn info args none
      = .error (.elimNoExpectedType fn.constName)) ∧
    (∀ (et : Expr) (st₁ : EState σ),
      synthesizeTypeClassInstances O st = .ok st₁ →
      (O.instantiateMvars st₁.ctx et).hasExprMetavar = true →
      visitElimApp O fuel st fn info args (some et)
        = .error (.elimExpectedTypeHasMvar fn.constName (O.instantiateMvars st₁.ctx et))) ∧
    (∀ (fname : Name) (bi : BinderInfo) (d b : Expr) (i : Nat) (a : Expr)
        (rest newArgs : List Expr) (postponed : List (Option Expr)) (st₀ : EState σ)
        (v : Expr) (st₂ st₃ : EState σ),
      info.idxs.contains i = true →
      O.visit st₀ a (some d) = .ok (v, st₂) →
      synthesize O st₂ = .ok st₃ →
      (O.instantiateMvars st₃.ctx v).hasExprMetavar = true →
      elimFirstPassLoop O fname info (fuel+1) st₀ (.pi bi d b) i (a :: rest) newArgs postponed
        = .error (.elimKeyArgHasMvar fname (O.instantiateMvars st₃.ctx v))) ∧
    (∀ (et : Expr) (st₁ : EState σ) (e : ElabErr),
      synthesizeTypeClassInstances O st = .ok st₁ →
      (O.instantiateMvars st₁.ctx et).hasExprMetavar = false →
      elimFirstPassLoop O fn.constName info fuel st₁
          (O.tryToPi st₁.ctx (O.inferType st₁.ctx fn)) 0 args [] [] = .error e →
      visitElimApp O fuel st fn info args (some et) = .error e) := by
  refine ⟨rfl, ?_, ?_, ?_⟩
  · intro et st₁ hsy hmv
    unfold visitElimApp
    rw [hsy]
    simp only [hmv, if_true]
  · intro fname bi d b i a rest newArgs postponed st₀ v st₂ st₃ hkey hv hsy hmv
    unfold elimFirstPassLoop
    rw [hkey]
    simp only [if_true, hv, hsy, hmv]
  · intro et st₁ e hsy hmv hloop
    unfold visitElimApp
    rw [hsy]
    simp only [hmv, Bool.false_eq_true, if_false, hloop]

/-- Oracle for the C9 witness: the recursor head's type is a single-binder
pi, and visiting the key argument leaves a bare metavariable. -/
def c9O : ElabOracle TState Unit :=
  { toyOracle with
    visit := fun st _ _ => .ok (.mvar 42, st)
    inferType := fun _ e =>
      match e with
      | .const 90 => .pi .default (.sort 0) (.sort 0)
      | _ => .sort 0 }

/-- C9 witness eliminator data: arity 1, the single explicit argument is the
key position. -/
def elimInfo₀ : ElimInfo := { arity := 1, nexplicit := 1, motiveIdx := 0, idxs := [0] }

/-- Witness for C9 at concrete inputs: no expected type, a metavariable in
the expected type, and a key argument with a residual metavariable all raise
errors, the last propagating out of `visit_elim_app`. -/
theorem c9_elim_app_errors_witness :
    visitElimApp toyOracle 1 toySt (.const 90) elimInfo₀ [] none
      = .error (.elimNoExpectedType 90) ∧
    visitElimApp toyOracle 1 toySt (.const 90) elimInfo₀ [] (some (.mvar 7))
      = .error (.elimExpectedTypeHasMvar 90 (.mvar 7)) ∧
    elimFirstPassLoop c9O 90 elimInfo₀ 1 toySt (.pi .default (.sort 0) (.sort 0)) 0
        [.const 3] [] []
      = .error (.elimKeyArgHasMvar 90 (.mvar 42)) ∧
    visitElimApp c9O 1 toySt (.const 90) elimInfo₀ [.const 3] (some (.const 5))
      = .error (.elimKeyArgHasMvar 90 (.mvar 42)) :=
  ⟨(c9_elim_app_errors toyOracle 1 toySt (.const 90) elimInfo₀ []).1,
   (c9_elim_app_errors toyOracle 1 toySt (.const 90) elimInfo₀ []).2.1 (.mvar 7) toySt
     rfl rfl,
   (c9_elim_app_errors c9O 0 toySt (.const 90) elimInfo₀ [.const 3]).2.2.1 90 .default
     (.sort 0) (.sort 0) 0 (.const 3) [] [] [] toySt (.mvar 42) toySt toySt rfl rfl rfl rfl,
   (c9_elim_app_errors c9O 1 toySt (.const 90) elimInfo₀ [.const 3]).2.2.2 (.const 5)
     toySt (.elimKeyArgHasMvar 90 (.mvar 42)) rfl rfl rfl⟩

end L3

namespace L3

/-! ## Anonymous constructors (`elaborator.cpp` lines 2015–2050) -/

/-- C++ `is_anonymous_constructor`. -/
def isAnonymousConstructor : Expr → Bool
  | .tagged t _ => t == anonymousConstructorTag
  | _ => false

/-- C++ `get_anonymous_constructor_arg`. -/
def getAnonymousConstructorArg : Expr → Expr
  | .tagged _ e => e
  | e => e

/-- C++ `mk_anonymous_constructor`. -/
def mkAnonymousConstructor (e : Expr) : Expr := .tagged anonymousConstructorTag e

/-- The explicit-binder count of a constructor type (lines 2035–2040). -/
def countExplicitBinders : Expr → Nat
  | .pi bi _ b => (if bi.isExplicit then 1 else 0) + countExplicitBinders b
  | _ => 0

/-- `elaborator::visit_anonymous_constructor` (lines 2015–2050): requires a
known expected type whose relaxed weak-head normal form is headed by a
constant naming a non-private inductive type with exactly one constructor;
surplus arguments are re-nested into a trailing anonymous constructor, and
the result is elaborated as an application of the single constructor. -/
def visitAnonymousConstructor {σ φ : Type} (O : ElabOracle σ φ) (st : EState σ)
    (e : Expr) (expected? : Option Expr) : Except ElabErr (Expr × EState σ) :=
  let c := (getAnonymousConstructorArg e).getAppFn
  let cargs := (getAnonymousConstructorArg e).getAppArgs
  match expected? with
  | none => .error .anonCtorNoExpectedType
  | some expectedType =>
      let I := (O.relaxedWhnf st.ctx (O.instantiateMvars st.ctx expectedType)).getAppFn
      if !I.isConstant then .error (.anonCtorNotInductive expectedType)
      else
        let IName := I.constName
        if O.isPrivate IName then .error (.anonCtorPrivate IName)
        else if !O.isInductiveDecl IName then .error (.anonCtorNotInductiveDecl IName)
        else
          let cNames := O.getIntroRuleNames IName
          if cNames.length != 1 then .error (.anonCtorNotSingleCtor IName)
          else
            let ctorName := cNames.headD 0
            let numExplicit := countExplicitBinders (O.envGetType ctorName)
            let args :=
              if numExplicit > 1 && cargs.length > numExplicit then
                cargs.take (numExplicit - 1)
                  ++ [mkAnonymousConstructor (mkAppList c (cargs.drop (numExplicit - 1)))]
              else cargs
            O.visit st (mkAppList (.const ctorName) args) (some expectedType)

/-- **C10.**  Elaborating an anonymous-constructor term fails unless an
expected type is given and its relaxed weak-head normal form is headed by a
constant naming a non-private inductive type with exactly one constructor;
each of the failing conditions raises its specific error, and a successful
elaboration certifies all the conditions. -/
theorem c10_anonymous_constructor {σ φ : Type} (O : ElabOracle σ φ) (st : EState σ)
    (e : Expr) :
    (visitAnonymousConstructor O st e none = .error .anonCtorNoExpectedType) ∧
    (∀ et, ((O.relaxedWhnf st.ctx (O.instantiateMvars st.ctx et)).getAppFn).isConstant = false →
      visitAnonymousConstructor O st e (some et) = .error (.anonCtorNotInductive et)) ∧
    (∀ et, ((O.relaxedWhnf st.ctx (O.instantiateMvars st.ctx et)).getAppFn).isConstant = true →
      O.isPrivate ((O.relaxedWhnf st.ctx (O.instantiateMvars st.ctx et)).getAppFn).constName = true →
      visitAnonymousConstructor O st e (some et) =
        .error (.anonCtorPrivate
          ((O.relaxedWhnf st.ctx (O.instantiateMvars st.ctx et)).getAppFn).constName)) ∧
    (∀ et, ((O.relaxedWhnf st.ctx (O.instantiateMvars st.ctx et)).getAppFn).isConstant = true →
      O.isPrivate ((O.relaxedWhnf st.ctx (O.instantiateMvars st.ctx et)).getAppFn).constName = false →
      O.isInductiveDecl ((O.relaxedWhnf st.ctx (O.instantiateMvars st.ctx et)).getAppFn).constName = false →
      visitAnonymousConstructor O st e (some et) =
        .error (.anonCtorNotInductiveDecl
          ((O.relaxedWhnf st.ctx (O.instantiateMvars st.ctx et)).getAppFn).constName)) ∧
    (∀ et, ((O.relaxedWhnf st.ctx (O.instantiateMvars st.ctx et)).getAppFn).isConstant = true →
      O.isPrivate ((O.relaxedWhnf st.ctx (O.instantiateMvars st.ctx et)).getAppFn).constName = false →
      O.isInductiveDecl ((O.relaxedWhnf st.ctx (O.instantiateMvars st.ctx et)).getAppFn).constName = true →
      (O.getIntroRuleNames
        ((O.relaxedWhnf st.ctx (O.instantiateMvars st.ctx et)).getAppFn).constName).length ≠ 1 →
      visitAnonymousConstructor O st e (some et) =
        .error (.anonCtorNotSingleCtor
          ((O.relaxedWhnf st.ctx (O.instantiateMvars st.ctx et)).getAppFn).constName)) ∧
    (∀ et? r, visitAnonymousConstructor O st e et? = .ok r →
      ∃ et, et? = some et ∧
        ((O.relaxedWhnf st.ctx (O.instantiateMvars st.ctx et)).getAppFn).isConstant = true ∧
        O.isPrivate ((O.relaxedWhnf st.ctx (O.instantiateMvars st.ctx et)).getAppFn).constName = false ∧
        O.isInductiveDecl ((O.relaxedWhnf st.ctx (O.instantiateMvars st.ctx et)).getAppFn).constName = true ∧
        (O.getIntroRuleNames
          ((O.relaxedWhnf st.ctx (O.instantiateMvars st.ctx et)).getAppFn).constName).length = 1) := by
  refine ⟨rfl, ?_, ?_, ?_, ?_, ?_⟩
  · intro et h
    unfold visitAnonymousConstructor
    simp only [h, Bool.not_false, if_true]
  · intro et h₁ h₂
    unfold visitAnonymousConstructor
    simp only [h₁, Bool.not_true, Bool.false_eq_true, if_false, h₂, if_true]
  · intro et h₁ h₂ h₃
    unfold visitAnonymousConstructor
    simp only [h₁, Bool.not_true, Bool.false_eq_true, if_false, h₂, h₃, Bool.not_false,
      if_true]
  · intro et h₁ h₂ h₃ h₄
    unfold visitAnonymousConstructor
    simp only [h₁, Bool.not_true, Bool.false_eq_true, if_false, h₂, h₃, Bool.not_false]
    have hb : ((O.getIntroRuleNames
        ((O.relaxedWhnf st.ctx (O.instantiateMvars st.ctx et)).getAppFn).constName).length
          != 1) = true := by
      simpa [bne_iff_ne] using h₄
    simp only [hb, if_true]
  · intro et? r h
    cases et? with
    | none => cases h
    | some et =>
        refine ⟨et, rfl, ?_⟩
        unfold visitAnonymousConstructor at h
        by_cases h₁ : ((O.relaxedWhnf st.ctx (O.instantiateMvars st.ctx et)).getAppFn).isConstant = true
        · simp only [h₁, Bool.not_true, Bool.false_eq_true, if_false] at h
          by_cases h₂ : O.isPrivate ((O.relaxedWhnf st.ctx (O.instantiateMvars st.ctx et)).getAppFn).constName = true
          · rw [if_pos h₂] at h; cases h
          · rw [if_neg h₂] at h
            rw [Bool.not_eq_true] at h₂
            by_cases h₃ : O.isInductiveDecl ((O.relaxedWhnf st.ctx (O.instantiateMvars st.ctx et)).getAppFn).constName = true
            · simp only [h₃, Bool.not_true, Bool.false_eq_true, if_false] at h
              by_cases h₄ : (O.getIntroRuleNames
                  ((O.relaxedWhnf st.ctx (O.instantiateMvars st.ctx et)).getAppFn).constName).length = 1
              · exact ⟨h₁, h₂, h₃, h₄⟩
              · rw [if_pos (by simpa using h₄)] at h; cases h
            · rw [Bool.not_eq_true] at h₃
              simp only [h₃, Bool.not_false, if_true] at h
              cases h
        · rw [Bool.not_eq_true] at h₁
          simp only [h₁, Bool.not_false, if_true] at h
          cases h
  -- conjunct (a) is definitional: no expected type is an immediate error

/-- Oracle for the C10 witness: `c₈₀` is a one-constructor inductive with
constructor `c₈₁`. -/
def c10O : ElabOracle TState Unit :=
  { toyOracle with
    isInductiveDecl := fun n => n == 80
    getIntroRuleNames := fun n => if n == 80 then [81] else [] }

/-- Witness for C10 at concrete inputs: a missing expected type fails, and a
successful elaboration against `c₈₀` certifies every condition. -/
theorem c10_anonymous_constructor_witness :
    visitAnonymousConstructor c10O toySt
        (mkAnonymousConstructor (.app (.const 1) (.const 2))) none
      = .error .anonCtorNoExpectedType ∧
    (∃ et, some (Expr.const 80) = some et ∧
      ((c10O.relaxedWhnf toySt.ctx (c10O.instantiateMvars toySt.ctx et)).getAppFn).isConstant = true ∧
      c10O.isPrivate ((c10O.relaxedWhnf toySt.ctx (c10O.instantiateMvars toySt.ctx et)).getAppFn).constName = false ∧
      c10O.isInductiveDecl ((c10O.relaxedWhnf toySt.ctx (c10O.instantiateMvars toySt.ctx et)).getAppFn).constName = true ∧
      (c10O.getIntroRuleNames
        ((c10O.relaxedWhnf toySt.ctx (c10O.instantiateMvars toySt.ctx et)).getAppFn).constName).length = 1) :=
  ⟨(c10_anonymous_constructor c10O toySt
      (mkAnonymousConstructor (.app (.const 1) (.const 2)))).1,
   (c10_anonymous_constructor c10O toySt
      (mkAnonymousConstructor (.app (.const 1) (.const 2)))).2.2.2.2.2
      (some (.const 80)) (.app (.const 81) (.const 2), toySt) rfl⟩

end L3
